import Mathlib

/-!
# Verification of the autd3 CPU firmware core (`src/app.c`)

Shallow embedding of the frame-dispatch and streaming-write engine of the
autd3 CPU firmware.  Machine integers are modelled as `Nat` with explicit
`% 2^32` where the C code uses `uint32_t` accumulators; memory-mapped BRAM
writes are modelled as an explicit write log (`WOp`) plus a state-passing
interpretation; fixed-size device buffers are modelled as total functions
`Nat → Nat` (mirroring the C code's unchecked pointer indexing).
-/

namespace Autd3

/-- Number of transducers.  `TRANS_NUM` comes from `params.h`, which is not
part of the sources; the specification assumes N = 249. -/
def TRANS_NUM : Nat := 249

/-- `GAIN_DATA_MODE_PHASE_DUTY_FULL` (0x0001) from `app.c`. -/
def GAIN_DATA_MODE_PHASE_DUTY_FULL : Nat := 1
/-- `GAIN_DATA_MODE_PHASE_FULL` (0x0002) from `app.c`. -/
def GAIN_DATA_MODE_PHASE_FULL : Nat := 2
/-- `GAIN_DATA_MODE_PHASE_HALF` (0x0004) from `app.c`. -/
def GAIN_DATA_MODE_PHASE_HALF : Nat := 4

/-- `MSG_CLEAR` (0x00). -/
def MSG_CLEAR : Nat := 0
/-- `MSG_RD_CPU_VERSION` (0x01). -/
def MSG_RD_CPU_VERSION : Nat := 1
/-- `MSG_RD_FPGA_VERSION` (0x03). -/
def MSG_RD_FPGA_VERSION : Nat := 3
/-- `MSG_RD_FPGA_FUNCTION` (0x04). -/
def MSG_RD_FPGA_FUNCTION : Nat := 4
/-- `MSG_END` (0xF0). -/
def MSG_END : Nat := 240
/-- `CPU_VERSION` (0x82). -/
def CPU_VERSION : Nat := 130

/-- Bits of `cpu_ctl_reg` (the `CPUControlFlags` enum in `app.c`). -/
def MOD_FLAG : Nat := 1
/-- `MOD_BEGIN` = 1 <<< 1. -/
def MOD_BEGIN : Nat := 2
/-- `MOD_END` = 1 <<< 2. -/
def MOD_END : Nat := 4
/-- `CONFIG_SILENCER` = 1 <<< 1 (shares its bit with `MOD_BEGIN`). -/
def CONFIG_SILENCER : Nat := 2
/-- `CONFIG_SYNC` = 1 <<< 2 (shares its bit with `MOD_END`). -/
def CONFIG_SYNC : Nat := 4
/-- `WRITE_BODY` = 1 <<< 3. -/
def WRITE_BODY : Nat := 8
/-- `STM_BEGIN` = 1 <<< 4. -/
def STM_BEGIN : Nat := 16
/-- `STM_END` = 1 <<< 5. -/
def STM_END : Nat := 32
/-- `IS_DUTY` = 1 <<< 6. -/
def IS_DUTY : Nat := 64
/-- `MOD_DELAY` = 1 <<< 7. -/
def MOD_DELAY : Nat := 128

/-- The C idiom `(reg & FLAG) != 0`. -/
def hasFlag (reg flag : Nat) : Bool := reg &&& flag != 0

/-- Modelled from the spec: the `fpga_ctl_reg` bit *positions*
(`CTL_REG_LEGACY_MODE_BIT`, …) live in `params.h`, which is not part of the
sources, so the FPGA control register is modelled as a record of the six
named flags instead of a numeric bitmask.  Writing the register stores the
whole record; `| SYNC` sets the `sync` field. -/
structure CtlFlags where
  legacyMode : Bool
  forceFan : Bool
  opMode : Bool
  stmGainMode : Bool
  readsFpgaInfo : Bool
  sync : Bool
deriving DecidableEq, Repr

/-- The all-clear FPGA control value. -/
def CtlFlags.zero : CtlFlags :=
  ⟨false, false, false, false, false, false⟩

/-- The value `LEGACY_MODE` (only the legacy bit set), written by `clear`. -/
def CtlFlags.legacyOnly : CtlFlags :=
  ⟨true, false, false, false, false, false⟩

/-- Scalar FPGA controller-BRAM registers used by the core (the
`BRAM_ADDR_*` offsets of `params.h` are unknown, so registers are
identified by name; indexed constructors stand for the table bases). -/
inductive CReg where
  | silentStep | silentCycle
  | modAddrOffset | modCycleR | modFreqDiv0 | modFreqDiv1
  | stmAddrOffset | stmCycleR | stmFreqDiv0 | stmFreqDiv1
  | soundSpeed0 | soundSpeed1
  | cycleBase (i : Nat) | modDelay (i : Nat) | ecSyncTime (i : Nat)
  | versionNum | fpgaInfo
deriving DecidableEq, Repr

/-- One write performed through the BRAM interface
(`bram_write` / `bram_cpy` / `bram_set` / stride stores through
`get_addr`).  Addresses inside the MOD / NORMAL / STM selects are the word
offsets the firmware passes to the interface (window addresses). -/
inductive WOp where
  | ctl (v : CtlFlags)
  | creg (r : CReg) (v : Nat)
  | modW (a v : Nat)
  | normalW (a v : Nat)
  | normalSet (a v n : Nat)
  | stmW (a v : Nat)
deriving DecidableEq, Repr

/-- The 128-byte `GlobalHeader`.  The 124-byte payload union is modelled as
a byte-addressed total function (`DATA`), with accessors for each union
member. -/
structure GlobalHeader where
  msgId : Nat
  fpgaCtlReg : CtlFlags
  cpuCtlReg : Nat
  size : Nat
  data : Nat → Nat

/-- `DATA.MOD_HEAD.freq_div` : little-endian u32 at payload bytes 0..3. -/
def GlobalHeader.modHeadFreqDiv (h : GlobalHeader) : Nat :=
  h.data 0 + 256 * h.data 1 + 65536 * h.data 2 + 16777216 * h.data 3

/-- `DATA.MOD_HEAD.data` : bytes from payload offset 4. -/
def GlobalHeader.modHeadData (h : GlobalHeader) : Nat → Nat :=
  fun i => h.data (4 + i)

/-- `DATA.MOD_BODY.data` : the whole payload. -/
def GlobalHeader.modBodyData (h : GlobalHeader) : Nat → Nat :=
  fun i => h.data i

/-- `DATA.SILENT.cycle` : u16 at payload bytes 0..1. -/
def GlobalHeader.silentCycle (h : GlobalHeader) : Nat :=
  h.data 0 + 256 * h.data 1

/-- `DATA.SILENT.step` : u16 at payload bytes 2..3. -/
def GlobalHeader.silentStep (h : GlobalHeader) : Nat :=
  h.data 2 + 256 * h.data 3

/-- The 2·`TRANS_NUM`-byte `Body`, viewed (as all its union members are)
as a u16-word-addressed buffer.  A total function mirrors the C code's
unchecked indexing past `TRANS_NUM`. -/
structure Body where
  data : Nat → Nat

/-- `uint32_t` addition. -/
def u32add (a b : Nat) : Nat := (a + b) % 4294967296

theorem u32add_small {a b : Nat} (h : a + b < 4294967296) :
    u32add a b = a + b := Nat.mod_eq_of_lt h

/-- Pointwise function update (one memory cell). -/
def upd (f : Nat → Nat) (a v : Nat) : Nat → Nat :=
  fun x => if x = a then v else f x

/-- The FPGA-side state as seen through the BRAM interface: the control
register, the named controller registers, and the three word-addressed
buffer selects (addresses are the window offsets the firmware passes). -/
structure FpgaSt where
  ctlReg : CtlFlags
  creg : CReg → Nat
  modBram : Nat → Nat
  normalBram : Nat → Nat
  stmBram : Nat → Nat

/-- Apply one BRAM write. -/
def applyW (f : FpgaSt) : WOp → FpgaSt
  | .ctl v => { f with ctlReg := v }
  | .creg r v => { f with creg := fun x => if x = r then v else f.creg x }
  | .modW a v => { f with modBram := upd f.modBram a v }
  | .normalW a v => { f with normalBram := upd f.normalBram a v }
  | .normalSet a v n =>
      { f with normalBram := fun x => if a ≤ x ∧ x < a + n then v else f.normalBram x }
  | .stmW a v => { f with stmBram := upd f.stmBram a v }

/-- Apply a write log in order. -/
def applyWs (f : FpgaSt) (L : List WOp) : FpgaSt := L.foldl applyW f

/-- The bounded SPSC ring (`BUF_SIZE = 32`): 32 by-value slots and the two
cursors `_write_cursor` / `_read_cursor`. -/
structure Ring where
  buf : Nat → GlobalHeader × Body
  wcur : Nat
  rcur : Nat

/-- `push` from `app.c`: compute `next`, fail if it would catch up with
`_read_cursor`, else store the frame at `_write_cursor` and publish. -/
def push (r : Ring) (f : GlobalHeader × Body) : Ring × Bool :=
  let n0 := r.wcur + 1
  let next := if 32 ≤ n0 then 0 else n0
  if next = r.rcur then (r, false)
  else ({ buf := fun i => if i = r.wcur then f else r.buf i,
          wcur := next, rcur := r.rcur }, true)

/-- `pop` from `app.c`: fail if the cursors coincide, else copy out the
frame at `_read_cursor` and advance it. -/
def pop (r : Ring) : Ring × Option (GlobalHeader × Body) :=
  if r.rcur = r.wcur then (r, none)
  else
    let n0 := r.rcur + 1
    let next := if 32 ≤ n0 then 0 else n0
    ({ r with rcur := next }, some (r.buf r.rcur))

/-- The whole firmware state: the FPGA, the CPU-side globals of `app.c`
(`_ack`, `_msg_id`, `_read_fpga_info`, `_cycle`, `_mod_cycle`,
`_stm_cycle`, `_seq_gain_data_mode`), the ring, the `_head`/`_body`
scratch pair, the TX acknowledgement word, and the EtherCAT
`DC_CYC_START_TIME` device register. -/
structure Sys where
  fpga : FpgaSt
  ack : Nat
  msgId : Nat
  readFpgaInfo : Bool
  cycleArr : Nat → Nat
  modCycle : Nat
  stmCycle : Nat
  seqGainDataMode : Nat
  ring : Ring
  headScratch : GlobalHeader
  bodyScratch : Body
  txAck : Nat
  dcCycStartTime : Nat

/-- Perform a write log against the FPGA part of the state. -/
def emit (s : Sys) (L : List WOp) : Sys := { s with fpga := applyWs s.fpga L }

/-! ## The writers -/

/-- `config_silencer`: write `SILENT_STEP := header.step` then
`SILENT_CYCLE := header.cycle`. -/
def config_silencer (s : Sys) (h : GlobalHeader) : Sys × List WOp :=
  let L := [WOp.creg CReg.silentStep h.silentStep,
            WOp.creg CReg.silentCycle h.silentCycle]
  (emit s L, L)

/-- `set_mod_delay`: copy `TRANS_NUM` u16 delays to `MOD_DELAY_BASE`. -/
def set_mod_delay (s : Sys) (b : Body) : Sys × List WOp :=
  let L := (List.range TRANS_NUM).map (fun i => WOp.creg (CReg.modDelay i) (b.data i))
  (emit s L, L)

/-- `write_normal_op_legacy`: `TRANS_NUM` words at stride 2 from offset 0
of the NORMAL select. -/
def write_normal_op_legacy (s : Sys) (b : Body) : Sys × List WOp :=
  let L := (List.range TRANS_NUM).map (fun i => WOp.normalW (2 * i) (b.data i))
  (emit s L, L)

/-- `write_normal_op_raw`: `TRANS_NUM` words at stride 2, offset 1 when
`is_duty`, else offset 0. -/
def write_normal_op_raw (s : Sys) (b : Body) (isDuty : Bool) : Sys × List WOp :=
  let off := if isDuty then 1 else 0
  let L := (List.range TRANS_NUM).map (fun i => WOp.normalW (2 * i + off) (b.data i))
  (emit s L, L)

/-- `write_normal_op`: dispatch on `LEGACY_MODE` and `IS_DUTY`. -/
def write_normal_op (s : Sys) (h : GlobalHeader) (b : Body) : Sys × List WOp :=
  if h.fpgaCtlReg.legacyMode then write_normal_op_legacy s b
  else write_normal_op_raw s b (hasFlag h.cpuCtlReg IS_DUTY)

/-- `synchronize`: copy the cycle table and the EC sync time, write
`CTL_REG := header.fpga_ctl_reg | SYNC`, and cache the cycles in
`_cycle`. -/
def synchronize (s : Sys) (h : GlobalHeader) (b : Body) : Sys × List WOp :=
  let L := (List.range TRANS_NUM).map (fun i => WOp.creg (CReg.cycleBase i) (b.data i)) ++
    (List.range 4).map (fun j =>
      WOp.creg (CReg.ecSyncTime j) ((s.dcCycStartTime >>> (16 * j)) % 65536)) ++
    [WOp.ctl { h.fpgaCtlReg with sync := true }]
  ({ emit s L with
      cycleArr := fun i => if i < TRANS_NUM then b.data i else s.cycleArr i }, L)

/-! ### The gain-STM writer (`write_gain_stm`) -/

/-- Window word offset of a gain-STM slot:
`(_stm_cycle & GAIN_STM_BUF_SEGMENT_SIZE_MASK) << 9`. -/
def gainWin (c : Nat) : Nat := (c % 32) * 512

/-- One stride-2 store loop: `while (cnt--) { *dst = v; dst += 2; }`. -/
def strideWrites (dst0 : Nat) (v : Nat → Nat) (cnt : Nat) : List WOp :=
  (List.range cnt).map (fun i => WOp.stmW (dst0 + 2 * i) (v i))

/-- The byte value written by a PHASE_HALF sub-pass: extract the nibble at
shift `sh` and duplicate it (`0xFF00 | (p << 4) | p`). -/
def phaseHalfVal (sh : Nat) (src : Nat → Nat) (i : Nat) : Nat :=
  let p := (src i >>> sh) &&& 15
  65280 ||| (p <<< 4) ||| p

/-- The PHASE_FULL non-legacy, `IS_DUTY` clear loop:
`cnt = 0; while (cnt++ < TRANS_NUM) { *dst++ = *src++; *dst++ = _cycle[cnt] >> 1; }`.
Iteration `i` (0-based) stores `src i` and `cyc (i+1) / 2` consecutively:
the post-increment `cnt` makes the cycle-table index run from 1 to
`TRANS_NUM`. -/
def phaseFullRawOps (dst0 : Nat) (cyc src : Nat → Nat) : List WOp :=
  (List.range TRANS_NUM).flatMap (fun i =>
    [WOp.stmW (dst0 + 2 * i) (src i), WOp.stmW (dst0 + 2 * i + 1) (cyc (i + 1) / 2)])

/-- The cycle-table indices read by `phaseFullRawOps`: 1 .. `TRANS_NUM`. -/
def gainStmCycleReadIdx : List Nat := (List.range TRANS_NUM).map (fun i => i + 1)

/-- The per-mode body of the `switch` in `write_gain_stm`: returns the new
`_stm_cycle` and the STM-BRAM stores of the selected branch. -/
def gainStmBranch (c mode : Nat) (cyc src : Nat → Nat) (legacy duty : Bool) :
    Nat × List WOp :=
  if mode = GAIN_DATA_MODE_PHASE_DUTY_FULL then
    if legacy then (u32add c 1, strideWrites (gainWin c) src TRANS_NUM)
    else if duty then (u32add c 1, strideWrites (gainWin c + 1) src TRANS_NUM)
    else (c, strideWrites (gainWin c) src TRANS_NUM)
  else if mode = GAIN_DATA_MODE_PHASE_FULL then
    if legacy then
      let c1 := u32add c 1
      (u32add c1 1,
        strideWrites (gainWin c) (fun i => 65280 ||| (src i &&& 255)) TRANS_NUM ++
        strideWrites (gainWin c1) (fun i => 65280 ||| ((src i >>> 8) &&& 255)) TRANS_NUM)
    else if duty then (c, [])
    else (u32add c 1, phaseFullRawOps (gainWin c) cyc src)
  else if mode = GAIN_DATA_MODE_PHASE_HALF then
    if legacy then
      let c1 := u32add c 1
      let c2 := u32add c1 1
      let c3 := u32add c2 1
      (u32add c3 1,
        strideWrites (gainWin c) (phaseHalfVal 0 src) TRANS_NUM ++
        strideWrites (gainWin c1) (phaseHalfVal 4 src) TRANS_NUM ++
        strideWrites (gainWin c2) (phaseHalfVal 8 src) TRANS_NUM ++
        strideWrites (gainWin c3) (phaseHalfVal 12 src) TRANS_NUM)
    else (c, [])
  else -- `default:` — identical to the PHASE_DUTY_FULL case
    if legacy then (u32add c 1, strideWrites (gainWin c) src TRANS_NUM)
    else if duty then (u32add c 1, strideWrites (gainWin c + 1) src TRANS_NUM)
    else (c, strideWrites (gainWin c) src TRANS_NUM)

/-- The pure core of `write_gain_stm`: from the latched
(`_stm_cycle`, `_seq_gain_data_mode`, `_cycle`) state and a frame, compute
the new (`_stm_cycle`, `_seq_gain_data_mode`) pair and the write log.
An `STM_BEGIN` frame resets `_stm_cycle`, zeroes `STM_ADDR_OFFSET`, writes
`STM_FREQ_DIV` from body words 0/1, latches
`_seq_gain_data_mode := body[2]` and returns.  A body frame runs the mode
branch, then (unconditionally) rewrites `STM_ADDR_OFFSET` whenever the new
`_stm_cycle` is a multiple of 32, and writes `STM_CYCLE` on `STM_END`. -/
def gainPure (c mode : Nat) (cyc : Nat → Nat) (h : GlobalHeader) (b : Body) :
    (Nat × Nat) × List WOp :=
  if hasFlag h.cpuCtlReg STM_BEGIN then
    ((0, b.data 2),
     [WOp.creg CReg.stmAddrOffset 0,
      WOp.creg CReg.stmFreqDiv0 (b.data 0),
      WOp.creg CReg.stmFreqDiv1 (b.data 1)])
  else
    let st := gainStmBranch c mode cyc b.data
        h.fpgaCtlReg.legacyMode (hasFlag h.cpuCtlReg IS_DUTY)
    ((st.1, mode),
     st.2 ++
      (if st.1 % 32 = 0 then [WOp.creg CReg.stmAddrOffset (st.1 / 32)] else []) ++
      (if hasFlag h.cpuCtlReg STM_END then [WOp.creg CReg.stmCycleR (max 1 st.1 - 1)] else []))

/-- `write_gain_stm` as a transition of the full state. -/
def write_gain_stm (s : Sys) (h : GlobalHeader) (b : Body) : Sys × List WOp :=
  let r := gainPure s.stmCycle s.seqGainDataMode s.cycleArr h b
  ({ emit s r.2 with stmCycle := r.1.1, seqGainDataMode := r.1.2 }, r.2)

/-! ### The modulation writer (`write_mod`) -/

/-- `MOD_BUF_SEGMENT_SIZE` = 2^15 samples. -/
def MOD_SEG : Nat := 32768

/-- `bram_cpy` into the MOD select: `n` u16 words assembled little-endian
from consecutive payload bytes starting at byte offset `srcB`, stored at
consecutive window words from `win`. -/
def modCpy (bytes : Nat → Nat) (srcB win n : Nat) : List WOp :=
  (List.range n).map (fun i =>
    WOp.modW (win + i) (bytes (srcB + 2 * i) + 256 * bytes (srcB + 2 * i + 1)))

/-- The pure core of `write_mod`: from `_mod_cycle` and the header, the new
`_mod_cycle` and the write log.  On `MOD_BEGIN` the cycle restarts at 0,
`MOD_ADDR_OFFSET` is zeroed and `freq_div` written; the payload is
`MOD_HEAD.data` (bytes 4..) instead of `MOD_BODY.data`.  The append then
either fits the current 2^15-sample segment or is split at the boundary.
In the split case the C code advances the `uint16_t*` source by
`segment_capacity` *elements* (`data += segment_capacity`), i.e. by
`2 * segment_capacity` payload bytes, although only `segment_capacity`
bytes were consumed — the second chunk therefore reads from byte offset
`2 * cap`, faithfully reproduced here. -/
def modPure (mc0 : Nat) (h : GlobalHeader) : Nat × List WOp :=
  let isBegin := hasFlag h.cpuCtlReg MOD_BEGIN
  let mc := if isBegin then 0 else mc0
  let w := h.size
  let dataB := if isBegin then h.modHeadData else h.modBodyData
  let L0 : List WOp := if isBegin then
      [WOp.creg CReg.modAddrOffset 0,
       WOp.creg CReg.modFreqDiv0 (h.modHeadFreqDiv % 65536),
       WOp.creg CReg.modFreqDiv1 (h.modHeadFreqDiv / 65536)] else []
  let cap := MOD_SEG - mc % MOD_SEG
  let st : Nat × List WOp :=
    if w ≤ cap then
      (u32add mc w, modCpy dataB 0 ((mc % MOD_SEG) / 2) ((w + 1) / 2))
    else
      let mcA := u32add mc cap
      (u32add mcA (w - cap),
        modCpy dataB 0 ((mc % MOD_SEG) / 2) (cap / 2) ++
        [WOp.creg CReg.modAddrOffset ((mcA - mcA % MOD_SEG) / MOD_SEG)] ++
        modCpy dataB (2 * cap) ((mcA % MOD_SEG) / 2) ((w - cap + 1) / 2))
  (st.1, L0 ++ st.2 ++
    (if hasFlag h.cpuCtlReg MOD_END then [WOp.creg CReg.modCycleR (max 1 st.1 - 1)] else []))

/-- `write_mod` as a transition of the full state. -/
def write_mod (s : Sys) (h : GlobalHeader) : Sys × List WOp :=
  let r := modPure s.modCycle h
  ({ emit s r.2 with modCycle := r.1 }, r.2)

/-! ### The point-STM writer (`write_point_stm`) -/

/-- `POINT_STM_BUF_SEGMENT_SIZE` = 2^11 points. -/
def POINT_SEG : Nat := 2048

/-- The copy loop of `write_point_stm`: for each of `cnt` points, 4
consecutive u16 source words are stored at 4 consecutive window words,
then the destination skips 4 words (stride-8 slots). -/
def pointCpy (bd : Nat → Nat) (srcOff win cnt : Nat) : List WOp :=
  (List.range cnt).flatMap (fun k =>
    (List.range 4).map (fun j => WOp.stmW (win + 8 * k + j) (bd (srcOff + 4 * k + j))))

/-- The pure core of `write_point_stm`: from `_stm_cycle` and the frame,
the new `_stm_cycle` and the write log.  On `STM_BEGIN` the cycle
restarts, `STM_ADDR_OFFSET` is zeroed, `STM_FREQ_DIV` / `SOUND_SPEED` are
written from body words 1..4 and the points start at word 5; otherwise
they start at word 1.  `size` is body word 0 in both cases. -/
def pointPure (c0 : Nat) (h : GlobalHeader) (b : Body) : Nat × List WOp :=
  let isBegin := hasFlag h.cpuCtlReg STM_BEGIN
  let c := if isBegin then 0 else c0
  let size := b.data 0
  let srcOff : Nat := if isBegin then 5 else 1
  let L0 : List WOp := if isBegin then
      [WOp.creg CReg.stmAddrOffset 0,
       WOp.creg CReg.stmFreqDiv0 (b.data 1), WOp.creg CReg.stmFreqDiv1 (b.data 2),
       WOp.creg CReg.soundSpeed0 (b.data 3), WOp.creg CReg.soundSpeed1 (b.data 4)] else []
  let cap := POINT_SEG - c % POINT_SEG
  let st : Nat × List WOp :=
    if size ≤ cap then
      (u32add c size, pointCpy b.data srcOff ((c % POINT_SEG) * 8) size)
    else
      let cA := u32add c cap
      (u32add cA (size - cap),
        pointCpy b.data srcOff ((c % POINT_SEG) * 8) cap ++
        [WOp.creg CReg.stmAddrOffset ((cA - cA % POINT_SEG) / POINT_SEG)] ++
        pointCpy b.data (srcOff + 4 * cap) ((cA % POINT_SEG) * 8) (size - cap))
  (st.1, L0 ++ st.2 ++
    (if hasFlag h.cpuCtlReg STM_END then [WOp.creg CReg.stmCycleR (max 1 st.1 - 1)] else []))

/-- `write_point_stm` as a transition of the full state. -/
def write_point_stm (s : Sys) (h : GlobalHeader) (b : Body) : Sys × List WOp :=
  let r := pointPure s.stmCycle h b
  ({ emit s r.2 with stmCycle := r.1 }, r.2)

/-! ## `clear`, the dispatcher and the receive handler -/

/-- An all-zero header (what `memset(0)` leaves in a slot). -/
def zeroHeader : GlobalHeader := ⟨0, CtlFlags.zero, 0, 0, fun _ => 0⟩

/-- An all-zero body. -/
def zeroBody : Body := ⟨fun _ => 0⟩

/-- The write log of `clear`: CTL_REG := LEGACY_MODE, silencer defaults,
`MOD_CYCLE := max(1, 2) - 1`, `MOD_FREQ_DIV := 40960`, first mod word 0,
and the NORMAL select zeroed over `TRANS_NUM << 1` bytes. -/
def clearLog : List WOp :=
  [WOp.ctl CtlFlags.legacyOnly,
   WOp.creg CReg.silentStep 10,
   WOp.creg CReg.silentCycle 4096,
   WOp.creg CReg.modCycleR (max 1 2 - 1),
   WOp.creg CReg.modFreqDiv0 40960,
   WOp.creg CReg.modFreqDiv1 0,
   WOp.modW 0 0,
   WOp.normalSet 0 0 TRANS_NUM]

/-- `clear`: performs `clearLog` against the FPGA, clears
`_read_fpga_info`, resets `_stm_cycle := 0` and `_mod_cycle := 2`, and
zeroes the ring slots and the `_head`/`_body` scratch pair.  The cursors,
`_ack`, `_msg_id`, `_cycle` and `_seq_gain_data_mode` are not touched. -/
def clearSys (s : Sys) : Sys × List WOp :=
  ({ emit s clearLog with
      readFpgaInfo := false
      stmCycle := 0
      modCycle := 2
      ring := { s.ring with buf := fun _ => (zeroHeader, zeroBody) }
      headScratch := zeroHeader
      bodyScratch := zeroBody }, clearLog)

/-- The dispatcher body of `process()` once a frame has been popped:
CTL_REG first, then modulation / silencer, then at most one body
writer. -/
def processFrame (s : Sys) (h : GlobalHeader) (b : Body) : Sys × List WOp :=
  let L0 := [WOp.ctl h.fpgaCtlReg]
  let s0 := emit s L0
  let r1 := if hasFlag h.cpuCtlReg MOD_FLAG then write_mod s0 h
            else if hasFlag h.cpuCtlReg CONFIG_SILENCER then config_silencer s0 h
            else (s0, [])
  if !hasFlag h.cpuCtlReg WRITE_BODY then (r1.1, L0 ++ r1.2)
  else if hasFlag h.cpuCtlReg MOD_DELAY then
    let r2 := set_mod_delay r1.1 b
    (r2.1, L0 ++ r1.2 ++ r2.2)
  else if !h.fpgaCtlReg.opMode then
    let r2 := write_normal_op r1.1 h b
    (r2.1, L0 ++ r1.2 ++ r2.2)
  else if !h.fpgaCtlReg.stmGainMode then
    let r2 := write_point_stm r1.1 h b
    (r2.1, L0 ++ r1.2 ++ r2.2)
  else
    let r2 := write_gain_stm r1.1 h b
    (r2.1, L0 ++ r1.2 ++ r2.2)

/-- `process()`: drain at most one ring entry and dispatch it. -/
def process (s : Sys) : Sys × List WOp :=
  let p := pop s.ring
  match p.2 with
  | none => (s, [])
  | some fb =>
      processFrame { s with ring := p.1, headScratch := fb.1, bodyScratch := fb.2 } fb.1 fb.2

/-- The writers `process` can invoke for one frame. -/
inductive FrameWriter where
  | modWriter | silencerWriter | modDelayWriter | normalWriter | pointWriter | gainWriter
deriving DecidableEq, Repr

/-- Whether a writer is a *body* writer (consumes the `Body`). -/
def FrameWriter.isBody : FrameWriter → Bool
  | .modWriter | .silencerWriter => false
  | _ => true

/-- The writers invoked by the dispatcher for a frame with header `h`
(read off the `if` cascade of `process()`). -/
def writersRun (h : GlobalHeader) : List FrameWriter :=
  (if hasFlag h.cpuCtlReg MOD_FLAG then [FrameWriter.modWriter]
   else if hasFlag h.cpuCtlReg CONFIG_SILENCER then [FrameWriter.silencerWriter]
   else []) ++
  (if !hasFlag h.cpuCtlReg WRITE_BODY then []
   else if hasFlag h.cpuCtlReg MOD_DELAY then [FrameWriter.modDelayWriter]
   else if !h.fpgaCtlReg.opMode then [FrameWriter.normalWriter]
   else if !h.fpgaCtlReg.stmGainMode then [FrameWriter.pointWriter]
   else [FrameWriter.gainWriter])

/-- The write log each writer would produce for the frame, as a function
of the pre-dispatch state (every writer's log depends only on state fields
no earlier writer of the same frame modifies). -/
def writerLog (s : Sys) (h : GlobalHeader) (b : Body) : FrameWriter → List WOp
  | .modWriter => (modPure s.modCycle h).2
  | .silencerWriter => [WOp.creg CReg.silentStep h.silentStep,
                        WOp.creg CReg.silentCycle h.silentCycle]
  | .modDelayWriter => (List.range TRANS_NUM).map (fun i => WOp.creg (CReg.modDelay i) (b.data i))
  | .normalWriter => (write_normal_op s h b).2
  | .pointWriter => (pointPure s.stmCycle h b).2
  | .gainWriter => (gainPure s.stmCycle s.seqGainDataMode s.cycleArr h b).2

/-- `recv_ethercat`: classify one incoming frame.  `none` models the
producer spinning forever in `while (!push(...)) {}` on a full ring (no
consumer can run inside the ISR). -/
def recv_ethercat (s : Sys) (h : GlobalHeader) (b : Body) : Option (Sys × List WOp) :=
  if h.msgId = s.msgId then some (s, [])
  else
    let s1 := { s with msgId := h.msgId }
    let a0 := (h.msgId <<< 8) % 65536
    let rfi := h.fpgaCtlReg.readsFpgaInfo
    let a1 := if rfi then (a0 &&& 65280) ||| s1.fpga.creg CReg.fpgaInfo else a0
    let s2 := { s1 with readFpgaInfo := rfi, ack := a1 }
    if h.msgId = MSG_CLEAR then
      let r := clearSys s2
      some ({ r.1 with txAck := r.1.ack }, r.2)
    else if h.msgId = MSG_RD_CPU_VERSION then
      let a2 := (a1 &&& 65280) ||| (CPU_VERSION &&& 255)
      some ({ s2 with ack := a2, txAck := a2 }, [])
    else if h.msgId = MSG_RD_FPGA_VERSION then
      let a2 := (a1 &&& 65280) ||| (s2.fpga.creg CReg.versionNum &&& 255)
      some ({ s2 with ack := a2, txAck := a2 }, [])
    else if h.msgId = MSG_RD_FPGA_FUNCTION then
      let a2 := (a1 &&& 65280) ||| ((s2.fpga.creg CReg.versionNum >>> 8) &&& 255)
      some ({ s2 with ack := a2, txAck := a2 }, [])
    else if MSG_END < h.msgId then some ({ s2 with txAck := a1 }, [])
    else if !hasFlag h.cpuCtlReg MOD_FLAG && hasFlag h.cpuCtlReg CONFIG_SYNC then
      let r := synchronize s2 h b
      some ({ r.1 with txAck := r.1.ack }, r.2)
    else
      let p := push s2.ring (h, b)
      if p.2 then some ({ s2 with ring := p.1, txAck := a1 }, []) else none

/-- `init_app()` static state: all globals zero except
`_seq_gain_data_mode = GAIN_DATA_MODE_PHASE_DUTY_FULL` (before the
power-on `clear`). -/
def initFpga : FpgaSt := ⟨CtlFlags.zero, fun _ => 0, fun _ => 0, fun _ => 0, fun _ => 0⟩

/-- The ring before any traffic. -/
def initRing : Ring := ⟨fun _ => (zeroHeader, zeroBody), 0, 0⟩

/-- The static-initializer state of `app.c`. -/
def initSys : Sys :=
  ⟨initFpga, 0, 0, false, fun _ => 0, 0, 0, GAIN_DATA_MODE_PHASE_DUTY_FULL,
   initRing, zeroHeader, zeroBody, 0, 0⟩

/-! ## C1 — gain-STM advance law -/

/-- The advance law of the gain-STM writer, case by case (the conclusion
of claim C1). -/
def GainAdvanceCases (s : Sys) (h : GlobalHeader) (b : Body) : Prop :=
  ((s.seqGainDataMode = GAIN_DATA_MODE_PHASE_DUTY_FULL ∨
      (s.seqGainDataMode ≠ GAIN_DATA_MODE_PHASE_DUTY_FULL ∧
       s.seqGainDataMode ≠ GAIN_DATA_MODE_PHASE_FULL ∧
       s.seqGainDataMode ≠ GAIN_DATA_MODE_PHASE_HALF)) →
    ((h.fpgaCtlReg.legacyMode = false →
      (hasFlag h.cpuCtlReg IS_DUTY = false →
        (write_gain_stm s h b).1.stmCycle = s.stmCycle) ∧
      (hasFlag h.cpuCtlReg IS_DUTY = true →
        (write_gain_stm s h b).1.stmCycle = s.stmCycle + 1)) ∧
     (h.fpgaCtlReg.legacyMode = true →
      (write_gain_stm s h b).1.stmCycle = s.stmCycle + 1))) ∧
  (s.seqGainDataMode = GAIN_DATA_MODE_PHASE_FULL → h.fpgaCtlReg.legacyMode = true →
    (write_gain_stm s h b).1.stmCycle = s.stmCycle + 2) ∧
  (s.seqGainDataMode = GAIN_DATA_MODE_PHASE_HALF → h.fpgaCtlReg.legacyMode = true →
    (write_gain_stm s h b).1.stmCycle = s.stmCycle + 4)

/-- **C1.** For every gain-STM body frame (`STM_BEGIN` clear), the amount
added to `_stm_cycle` is determined by the latched mode and the header
flags: PHASE_DUTY_FULL (and any unknown mode) non-legacy adds 0 with
`IS_DUTY` clear and exactly 1 on the matching `IS_DUTY` frame; legacy adds
1 per frame; PHASE_FULL legacy adds 2; PHASE_HALF legacy adds 4. -/
theorem gain_stm_advance_law (s : Sys) (h : GlobalHeader) (b : Body)
    (hb : hasFlag h.cpuCtlReg STM_BEGIN = false)
    (hlt : s.stmCycle + 4 < 4294967296) : GainAdvanceCases s h b := by
  have h1 : u32add s.stmCycle 1 = s.stmCycle + 1 := u32add_small (by omega)
  have h2 : u32add (s.stmCycle + 1) 1 = s.stmCycle + 2 := u32add_small (by omega)
  have h3 : u32add (s.stmCycle + 2) 1 = s.stmCycle + 3 := u32add_small (by omega)
  have h4 : u32add (s.stmCycle + 3) 1 = s.stmCycle + 4 := u32add_small (by omega)
  refine ⟨?_, ?_, ?_⟩
  · rintro (hm | ⟨m1, m2, m3⟩)
    · exact ⟨fun hl => ⟨fun hd => by
          simp [write_gain_stm, gainPure, gainStmBranch, hb, hl, hd, hm, emit],
        fun hd => by
          simp [write_gain_stm, gainPure, gainStmBranch, hb, hl, hd, hm, h1, emit]⟩,
        fun hl => by
          simp [write_gain_stm, gainPure, gainStmBranch, hb, hl, hm, h1, emit]⟩
    · exact ⟨fun hl => ⟨fun hd => by
          simp [write_gain_stm, gainPure, gainStmBranch, hb, hl, hd, m1, m2, m3, emit],
        fun hd => by
          simp [write_gain_stm, gainPure, gainStmBranch, hb, hl, hd, m1, m2, m3, h1, emit]⟩,
        fun hl => by
          simp [write_gain_stm, gainPure, gainStmBranch, hb, hl, m1, m2, m3, h1, emit]⟩
  · intro hm hl
    simp [write_gain_stm, gainPure, gainStmBranch, hb, hl, hm, GAIN_DATA_MODE_PHASE_FULL,
      GAIN_DATA_MODE_PHASE_DUTY_FULL, h1, h2, emit]
  · intro hm hl
    simp [write_gain_stm, gainPure, gainStmBranch, hb, hl, hm, GAIN_DATA_MODE_PHASE_HALF,
      GAIN_DATA_MODE_PHASE_DUTY_FULL, GAIN_DATA_MODE_PHASE_FULL, h1, h2, h3, h4, emit]

/-- Witness for C1 at the initial state and a flagless body frame. -/
theorem gain_stm_advance_law_witness :
    hasFlag zeroHeader.cpuCtlReg STM_BEGIN = false ∧
    initSys.stmCycle + 4 < 4294967296 ∧
    GainAdvanceCases initSys zeroHeader zeroBody :=
  ⟨by decide, by decide,
   gain_stm_advance_law initSys zeroHeader zeroBody (by decide) (by decide)⟩

/-! ## C5 — skipped gain-STM frames -/

/-- The initial state with `GAIN_DATA_MODE_PHASE_HALF` latched (as left by
a gain-STM header frame with body word 2 = 4). -/
def skipSys : Sys := { initSys with seqGainDataMode := GAIN_DATA_MODE_PHASE_HALF }

/-- **C5, counterexample.**  A PHASE_HALF body frame without `LEGACY_MODE`
at `_stm_cycle = 0` leaves `_stm_cycle` alone but is *not* free of FPGA
writes: since `_stm_cycle & 31 == 0`, the writer still rewrites the
`STM_ADDR_OFFSET` register, so the claimed conjunction fails. -/
theorem gain_stm_skip_counterexample :
    hasFlag zeroHeader.cpuCtlReg STM_BEGIN = false ∧
    skipSys.seqGainDataMode = GAIN_DATA_MODE_PHASE_HALF ∧
    zeroHeader.fpgaCtlReg.legacyMode = false ∧
    (write_gain_stm skipSys zeroHeader zeroBody).2 = [WOp.creg CReg.stmAddrOffset 0] ∧
    ¬ ((write_gain_stm skipSys zeroHeader zeroBody).1.stmCycle = skipSys.stmCycle ∧
       (write_gain_stm skipSys zeroHeader zeroBody).2 = []) := by
  refine ⟨by decide, by decide, by decide, ?_, ?_⟩
  · decide
  · intro hc
    have := hc.2
    rw [show (write_gain_stm skipSys zeroHeader zeroBody).2 =
        [WOp.creg CReg.stmAddrOffset 0] from by decide] at this
    exact List.cons_ne_nil _ _ this

/-- **C5, amended.**  For a skipped gain-STM body frame (PHASE_HALF
without legacy, or PHASE_FULL non-legacy with `IS_DUTY`), `_stm_cycle` is
unchanged and no STM BRAM *data* word is written — but the frame is not
entirely effect-free: `STM_ADDR_OFFSET` is rewritten (with its current
value) whenever `_stm_cycle` is a multiple of 32, and `STM_CYCLE` is
written when the frame carries `STM_END`.  The write log is exactly
those register writes. -/
theorem gain_stm_skip_amended (s : Sys) (h : GlobalHeader) (b : Body)
    (hb : hasFlag h.cpuCtlReg STM_BEGIN = false)
    (hcase : (s.seqGainDataMode = GAIN_DATA_MODE_PHASE_HALF ∧
              h.fpgaCtlReg.legacyMode = false) ∨
             (s.seqGainDataMode = GAIN_DATA_MODE_PHASE_FULL ∧
              h.fpgaCtlReg.legacyMode = false ∧
              hasFlag h.cpuCtlReg IS_DUTY = true)) :
    (write_gain_stm s h b).1.stmCycle = s.stmCycle ∧
    (write_gain_stm s h b).2 =
      (if s.stmCycle % 32 = 0 then [WOp.creg CReg.stmAddrOffset (s.stmCycle / 32)] else []) ++
      (if hasFlag h.cpuCtlReg STM_END then
        [WOp.creg CReg.stmCycleR (max 1 s.stmCycle - 1)] else []) := by
  rcases hcase with ⟨hm, hl⟩ | ⟨hm, hl, hd⟩
  · simp [write_gain_stm, gainPure, gainStmBranch, hb, hl, hm, emit,
      GAIN_DATA_MODE_PHASE_DUTY_FULL, GAIN_DATA_MODE_PHASE_FULL, GAIN_DATA_MODE_PHASE_HALF]
  · simp [write_gain_stm, gainPure, gainStmBranch, hb, hl, hm, emit,
      GAIN_DATA_MODE_PHASE_DUTY_FULL, GAIN_DATA_MODE_PHASE_FULL, GAIN_DATA_MODE_PHASE_HALF,
      hd]

/-- Witness for the amended C5 at `_stm_cycle = 0`. -/
theorem gain_stm_skip_amended_witness :
    (hasFlag zeroHeader.cpuCtlReg STM_BEGIN = false ∧
     skipSys.seqGainDataMode = GAIN_DATA_MODE_PHASE_HALF ∧
     zeroHeader.fpgaCtlReg.legacyMode = false) ∧
    ((write_gain_stm skipSys zeroHeader zeroBody).1.stmCycle = skipSys.stmCycle ∧
     (write_gain_stm skipSys zeroHeader zeroBody).2 =
      (if skipSys.stmCycle % 32 = 0 then
        [WOp.creg CReg.stmAddrOffset (skipSys.stmCycle / 32)] else []) ++
      (if hasFlag zeroHeader.cpuCtlReg STM_END then
        [WOp.creg CReg.stmCycleR (max 1 skipSys.stmCycle - 1)] else [])) :=
  ⟨⟨by decide, by decide, by decide⟩,
   gain_stm_skip_amended skipSys zeroHeader zeroBody (by decide)
     (Or.inl ⟨by decide, by decide⟩)⟩

/-! ## C4 — PHASE_FULL non-legacy off-by-one cycle access -/

theorem pairs_length (f g : Nat → WOp) (n : Nat) :
    ((List.range n).flatMap (fun j => [f j, g j])).length = 2 * n := by
  induction n with
  | zero => simp
  | succ m ih =>
    rw [List.range_succ, List.flatMap_append (List.range m) [m] _]
    simp [ih]
    omega

theorem pairs_getElem (f g : Nat → WOp) (n i : Nat) (hi : i < n) :
    (((List.range n).flatMap (fun j => [f j, g j]))[2 * i]? = some (f i)) ∧
    (((List.range n).flatMap (fun j => [f j, g j]))[2 * i + 1]? = some (g i)) := by
  induction n with
  | zero => omega
  | succ m ih =>
    rw [List.range_succ, List.flatMap_append (List.range m) [m] _]
    have hl := pairs_length f g m
    rcases Nat.lt_succ_iff_lt_or_eq.mp hi with hc | hc
    · exact ⟨by rw [List.getElem?_append_left (by omega)]; exact (ih hc).1,
             by rw [List.getElem?_append_left (by omega)]; exact (ih hc).2⟩
    · subst hc
      constructor
      · rw [List.getElem?_append_right (by omega)]
        simp [hl]
      · rw [List.getElem?_append_right (by omega)]
        simp [hl]

/-- The emission shape of the PHASE_FULL non-legacy `IS_DUTY`-clear path
(the conclusion of claim C4): consecutive pairs `(src_i, _cycle[i+1] >> 1)`
for i = 0 .. `TRANS_NUM`-1; the last pair reads `_cycle[TRANS_NUM]`, one
past the end of the `TRANS_NUM`-entry table, so a `TRANS_NUM`-element list
indexed with the `Option`-returning accessor yields `none` there. -/
def PhaseFullRawShape (s : Sys) (h : GlobalHeader) (b : Body) : Prop :=
  (∀ i, i < TRANS_NUM →
    (write_gain_stm s h b).2[2 * i]? =
      some (WOp.stmW (gainWin s.stmCycle + 2 * i) (b.data i)) ∧
    (write_gain_stm s h b).2[2 * i + 1]? =
      some (WOp.stmW (gainWin s.stmCycle + 2 * i + 1) (s.cycleArr (i + 1) / 2))) ∧
  (write_gain_stm s h b).2[2 * (TRANS_NUM - 1) + 1]? =
    some (WOp.stmW (gainWin s.stmCycle + 2 * (TRANS_NUM - 1) + 1)
      (s.cycleArr TRANS_NUM / 2)) ∧
  (∀ tbl : List Nat, tbl.length = TRANS_NUM → tbl[TRANS_NUM]? = none)

/-- **C4.**  In the gain-STM PHASE_FULL non-legacy path with `IS_DUTY`
clear, the writer emits the pair `(src_i, _cycle[i+1] >> 1)` for every
`i < TRANS_NUM`; the last iteration therefore reads `_cycle[TRANS_NUM]`,
out of bounds for the `TRANS_NUM`-entry cycle table. -/
theorem gain_stm_phase_full_raw_oob (s : Sys) (h : GlobalHeader) (b : Body)
    (hb : hasFlag h.cpuCtlReg STM_BEGIN = false)
    (hm : s.seqGainDataMode = GAIN_DATA_MODE_PHASE_FULL)
    (hl : h.fpgaCtlReg.legacyMode = false)
    (hd : hasFlag h.cpuCtlReg IS_DUTY = false) :
    PhaseFullRawShape s h b := by
  have hlog : (write_gain_stm s h b).2 =
      phaseFullRawOps (gainWin s.stmCycle) s.cycleArr b.data ++
        ((if u32add s.stmCycle 1 % 32 = 0 then
            [WOp.creg CReg.stmAddrOffset (u32add s.stmCycle 1 / 32)] else []) ++
         (if hasFlag h.cpuCtlReg STM_END = true then
            [WOp.creg CReg.stmCycleR (max 1 (u32add s.stmCycle 1) - 1)] else [])) := by
    simp [write_gain_stm, gainPure, gainStmBranch, hb, hm, hl, hd, emit,
        GAIN_DATA_MODE_PHASE_DUTY_FULL, GAIN_DATA_MODE_PHASE_FULL]
  have hmain : ∀ i, i < TRANS_NUM →
      (write_gain_stm s h b).2[2 * i]? =
        some (WOp.stmW (gainWin s.stmCycle + 2 * i) (b.data i)) ∧
      (write_gain_stm s h b).2[2 * i + 1]? =
        some (WOp.stmW (gainWin s.stmCycle + 2 * i + 1) (s.cycleArr (i + 1) / 2)) := by
    intro i hi
    have hlen := pairs_length (fun j => WOp.stmW (gainWin s.stmCycle + 2 * j) (b.data j))
      (fun j => WOp.stmW (gainWin s.stmCycle + 2 * j + 1) (s.cycleArr (j + 1) / 2)) TRANS_NUM
    have hget := pairs_getElem (fun j => WOp.stmW (gainWin s.stmCycle + 2 * j) (b.data j))
      (fun j => WOp.stmW (gainWin s.stmCycle + 2 * j + 1) (s.cycleArr (j + 1) / 2))
      TRANS_NUM i hi
    constructor
    · rw [hlog]
      rw [show phaseFullRawOps (gainWin s.stmCycle) s.cycleArr b.data =
        (List.range TRANS_NUM).flatMap
          (fun j => [WOp.stmW (gainWin s.stmCycle + 2 * j) (b.data j),
                     WOp.stmW (gainWin s.stmCycle + 2 * j + 1) (s.cycleArr (j + 1) / 2)])
        from rfl]
      rw [List.getElem?_append_left (by rw [hlen]; omega)]
      exact hget.1
    · rw [hlog]
      rw [show phaseFullRawOps (gainWin s.stmCycle) s.cycleArr b.data =
        (List.range TRANS_NUM).flatMap
          (fun j => [WOp.stmW (gainWin s.stmCycle + 2 * j) (b.data j),
                     WOp.stmW (gainWin s.stmCycle + 2 * j + 1) (s.cycleArr (j + 1) / 2)])
        from rfl]
      rw [List.getElem?_append_left (by rw [hlen]; omega)]
      exact hget.2
  refine ⟨hmain, ?_, ?_⟩
  · have := (hmain (TRANS_NUM - 1) (by decide)).2
    rwa [show TRANS_NUM - 1 + 1 = TRANS_NUM from by decide] at this
  · intro tbl hlen
    exact List.getElem?_eq_none (by omega)

/-- The initial state with `GAIN_DATA_MODE_PHASE_FULL` latched. -/
def rawFullSys : Sys := { initSys with seqGainDataMode := GAIN_DATA_MODE_PHASE_FULL }

/-- Witness for C4 at a concrete state and flagless body frame. -/
theorem gain_stm_phase_full_raw_oob_witness :
    (hasFlag zeroHeader.cpuCtlReg STM_BEGIN = false ∧
     rawFullSys.seqGainDataMode = GAIN_DATA_MODE_PHASE_FULL ∧
     zeroHeader.fpgaCtlReg.legacyMode = false ∧
     hasFlag zeroHeader.cpuCtlReg IS_DUTY = false) ∧
    PhaseFullRawShape rawFullSys zeroHeader zeroBody :=
  ⟨⟨by decide, by decide, by decide, by decide⟩,
   gain_stm_phase_full_raw_oob rawFullSys zeroHeader zeroBody
     (by decide) (by decide) (by decide) (by decide)⟩

/-! ## C7 — dispatcher routing -/

/-- **C7.**  For every frame the periodic context drains, the dispatcher
first writes `header.fpga_ctl_reg` to CTL_REG; its whole write log is that
followed by the logs of the writers it routes to; the non-body slot runs
the modulation writer when `MOD` is set, else the silencer configurator
when `CONFIG_SILENCER` is set; and with `WRITE_BODY` clear no body writer
runs while otherwise exactly the one selected by
`MOD_DELAY` / `OP_MODE` / `STM_GAIN_MODE` runs. -/
theorem dispatcher_routing (s : Sys) (h : GlobalHeader) (b : Body) :
    (processFrame s h b).2.take 1 = [WOp.ctl h.fpgaCtlReg] ∧
    (processFrame s h b).2 =
      WOp.ctl h.fpgaCtlReg :: (writersRun h).flatMap (writerLog s h b) ∧
    (writersRun h).filter (fun w => !w.isBody) =
      (if hasFlag h.cpuCtlReg MOD_FLAG then [FrameWriter.modWriter]
       else if hasFlag h.cpuCtlReg CONFIG_SILENCER then [FrameWriter.silencerWriter]
       else []) ∧
    (writersRun h).filter (fun w => w.isBody) =
      (if !hasFlag h.cpuCtlReg WRITE_BODY then []
       else if hasFlag h.cpuCtlReg MOD_DELAY then [FrameWriter.modDelayWriter]
       else if !h.fpgaCtlReg.opMode then [FrameWriter.normalWriter]
       else if !h.fpgaCtlReg.stmGainMode then [FrameWriter.pointWriter]
       else [FrameWriter.gainWriter]) ∧
    ((writersRun h).countP (fun w => w.isBody)) =
      (if hasFlag h.cpuCtlReg WRITE_BODY then 1 else 0) := by
  cases hmod : hasFlag h.cpuCtlReg MOD_FLAG <;>
    cases hsil : hasFlag h.cpuCtlReg CONFIG_SILENCER <;>
    cases hwb : hasFlag h.cpuCtlReg WRITE_BODY <;>
    cases hdel : hasFlag h.cpuCtlReg MOD_DELAY <;>
    cases hop : h.fpgaCtlReg.opMode <;>
    cases hsg : h.fpgaCtlReg.stmGainMode <;>
    cases hleg : h.fpgaCtlReg.legacyMode <;>
    simp [processFrame, writersRun, writerLog, FrameWriter.isBody, emit,
      write_mod, config_silencer, set_mod_delay, write_normal_op,
      write_normal_op_legacy, write_normal_op_raw, write_point_stm, write_gain_stm,
      hmod, hsil, hwb, hdel, hop, hsg, hleg, List.countP_cons, List.countP_nil]

/-! ## C9 / C10 — `clear` -/

/-- **C9.**  `clear` establishes its postconditions (CTL_REG, silencer
defaults, `_stm_cycle`/`_mod_cycle` resets, MOD_CYCLE = 1,
MOD_FREQ_DIV = 40960, first mod word zero, NORMAL BRAM zeroed over
`TRANS_NUM` words = 2N bytes, ring slots and scratch zeroed,
`_read_fpga_info` cleared); running it twice leaves the FPGA state
identical to running it once; and `ack` is still 0 after the power-on
`clear` when no msg_id has been served. -/
theorem clear_spec (s : Sys) :
    (clearSys s).1.fpga.ctlReg = CtlFlags.legacyOnly ∧
    (clearSys s).1.fpga.creg CReg.silentStep = 10 ∧
    (clearSys s).1.fpga.creg CReg.silentCycle = 4096 ∧
    (clearSys s).1.stmCycle = 0 ∧
    (clearSys s).1.modCycle = 2 ∧
    (clearSys s).1.fpga.creg CReg.modCycleR = 1 ∧
    (clearSys s).1.fpga.creg CReg.modFreqDiv0 = 40960 ∧
    (clearSys s).1.fpga.creg CReg.modFreqDiv1 = 0 ∧
    (clearSys s).1.fpga.modBram 0 = 0 ∧
    (clearSys s).1.fpga.normalBram =
      (fun a => if a < TRANS_NUM then 0 else s.fpga.normalBram a) ∧
    (clearSys s).1.ring.buf = (fun _ => (zeroHeader, zeroBody)) ∧
    (clearSys s).1.headScratch = zeroHeader ∧
    (clearSys s).1.bodyScratch = zeroBody ∧
    (clearSys s).1.readFpgaInfo = false ∧
    (clearSys (clearSys s).1).1.fpga = (clearSys s).1.fpga ∧
    (clearSys initSys).1.ack = 0 := by
  refine ⟨rfl, rfl, rfl, rfl, rfl, rfl, rfl, rfl, rfl, ?_, rfl, rfl, rfl, rfl, ?_, rfl⟩
  · funext a
    simp [clearSys, emit, applyWs, applyW, clearLog, upd]
  · have hcreg : (clearSys (clearSys s).1).1.fpga.creg = (clearSys s).1.fpga.creg := by
      funext r
      rcases r <;>
        simp [clearSys, emit, applyWs, applyW, clearLog, upd]
    have hmod : (clearSys (clearSys s).1).1.fpga.modBram = (clearSys s).1.fpga.modBram := by
      funext a
      by_cases h0 : a = 0 <;> simp [clearSys, emit, applyWs, applyW, clearLog, upd, h0]
    have hnorm : (clearSys (clearSys s).1).1.fpga.normalBram =
        (clearSys s).1.fpga.normalBram := by
      funext a
      by_cases h0 : a < TRANS_NUM <;>
        simp [clearSys, emit, applyWs, applyW, clearLog, upd, h0]
    have hstm : (clearSys (clearSys s).1).1.fpga.stmBram = (clearSys s).1.fpga.stmBram := rfl
    have hctl : (clearSys (clearSys s).1).1.fpga.ctlReg = (clearSys s).1.fpga.ctlReg := rfl
    cases hfe : (clearSys (clearSys s).1).1.fpga
    cases hfe2 : (clearSys s).1.fpga
    simp only [FpgaSt.mk.injEq]
    rw [hfe, hfe2] at hcreg hmod hnorm hstm hctl
    simp only [FpgaSt.mk.injEq] at *
    exact ⟨hctl, hcreg, hmod, hnorm, hstm⟩

/-- **C10.**  `clear` leaves `_seq_gain_data_mode`, `_msg_id`, `_ack` and
both ring cursors unchanged; pending ring entries remain pending (same
cursors, so `pop` succeeds exactly when it would have before) but their
stored contents are now the zero frame. -/
theorem clear_preserves (s : Sys) :
    (clearSys s).1.seqGainDataMode = s.seqGainDataMode ∧
    (clearSys s).1.msgId = s.msgId ∧
    (clearSys s).1.ack = s.ack ∧
    (clearSys s).1.cycleArr = s.cycleArr ∧
    (clearSys s).1.ring.wcur = s.ring.wcur ∧
    (clearSys s).1.ring.rcur = s.ring.rcur ∧
    (pop (clearSys s).1.ring).2 =
      (if s.ring.rcur = s.ring.wcur then none else some (zeroHeader, zeroBody)) ∧
    (pop (clearSys s).1.ring).1.rcur = (pop s.ring).1.rcur := by
  refine ⟨rfl, rfl, rfl, rfl, rfl, rfl, ?_, ?_⟩
  · by_cases he : s.ring.rcur = s.ring.wcur <;> simp [pop, clearSys, he]
  · by_cases he : s.ring.rcur = s.ring.wcur <;> simp [pop, clearSys, he]

/-! ## C8 — duplicate `msg_id` deduplication -/

/-- **C8.**  Receiving a frame whose `msg_id` equals the last dispatched
one is a no-op (state unchanged, no FPGA write, before touching anything);
consequently delivering the same frame twice in a row is observationally
equal to delivering it once. -/
theorem recv_dedup (s : Sys) (h : GlobalHeader) (b : Body) :
    (h.msgId = s.msgId → recv_ethercat s h b = some (s, [])) ∧
    (∀ s2 L, recv_ethercat s h b = some (s2, L) →
       recv_ethercat s2 h b = some (s2, [])) := by
  constructor
  · intro he
    simp [recv_ethercat, he]
  · intro s2 L hr
    have hm : s2.msgId = h.msgId := by
      by_cases he : h.msgId = s.msgId
      · simp only [recv_ethercat, if_pos he, Option.some.injEq, Prod.mk.injEq] at hr
        rw [← hr.1, he]
      · simp only [recv_ethercat, if_neg he] at hr
        split_ifs at hr
        all_goals try rw [Option.some.injEq, Prod.mk.injEq] at hr
        all_goals obtain ⟨h1, h2⟩ := hr
        all_goals subst h1
        all_goals rfl
    simp [recv_ethercat, hm]

/-- Witness for C8: delivering `zeroHeader` (msg_id 0) to the initial
state (whose `_msg_id` is 0) is a no-op. -/
theorem recv_dedup_witness :
    zeroHeader.msgId = initSys.msgId ∧
    recv_ethercat initSys zeroHeader zeroBody = some (initSys, []) :=
  ⟨by decide, (recv_dedup initSys zeroHeader zeroBody).1 (by decide)⟩

/-! ## C6 — the bounded SPSC ring -/

/-- One ring operation of an interleaving. -/
inductive RingOp where
  | pushOp (f : GlobalHeader × Body)
  | popOp

/-- Run a sequence of ring operations, collecting the successfully pushed
frames and the popped frames in order. -/
def runOps : Ring → List RingOp →
    Ring × List (GlobalHeader × Body) × List (GlobalHeader × Body)
  | r, [] => (r, [], [])
  | r, RingOp.pushOp f :: rest =>
      let p := push r f
      let t := runOps p.1 rest
      (t.1, (if p.2 then [f] else []) ++ t.2.1, t.2.2)
  | r, RingOp.popOp :: rest =>
      let p := pop r
      let t := runOps p.1 rest
      (t.1, t.2.1, (match p.2 with | some f => [f] | none => []) ++ t.2.2)

/-- The outstanding (pushed, not yet popped) frames, oldest first. -/
def pending (r : Ring) : List (GlobalHeader × Body) :=
  (List.range ((32 + r.wcur - r.rcur) % 32)).map (fun i => r.buf ((r.rcur + i) % 32))

/-- Cursor sanity: both cursors stay below `BUF_SIZE`. -/
def RingWF (r : Ring) : Prop := r.wcur < 32 ∧ r.rcur < 32

theorem pending_length (r : Ring) :
    (pending r).length = (32 + r.wcur - r.rcur) % 32 := by
  simp [pending]

theorem push_eq (r : Ring) (f : GlobalHeader × Body) (hw : r.wcur < 32) :
    push r f = (if (r.wcur + 1) % 32 = r.rcur then (r, false)
      else ({ buf := fun i => if i = r.wcur then f else r.buf i,
              wcur := (r.wcur + 1) % 32, rcur := r.rcur }, true)) := by
  have hnext : (if 32 ≤ r.wcur + 1 then 0 else r.wcur + 1) = (r.wcur + 1) % 32 := by
    by_cases hc : 32 ≤ r.wcur + 1
    · rw [if_pos hc]
      omega
    · rw [if_neg hc]
      omega
  simp only [push]
  rw [hnext]

theorem push_spec (r : Ring) (f : GlobalHeader × Body)
    (hw : r.wcur < 32) (hr : r.rcur < 32) :
    ((push r f).2 = false ↔ (r.wcur + 1) % 32 = r.rcur) ∧
    ((push r f).2 = false ↔ (pending r).length = 31) ∧
    ((push r f).2 = false → (push r f).1 = r) ∧
    ((push r f).2 = true → RingWF (push r f).1 ∧
      pending (push r f).1 = pending r ++ [f]) := by
  rw [push_eq r f hw, pending_length]
  by_cases he : (r.wcur + 1) % 32 = r.rcur
  · rw [if_pos he]
    refine ⟨by simpa using he, by simp; omega, fun _ => rfl, fun hok => by simp at hok⟩
  · rw [if_neg he]
    refine ⟨by simpa using he, by simp; omega, fun hfail => by simp at hfail, fun _ => ?_⟩
    refine ⟨⟨show (r.wcur + 1) % 32 < 32 by omega, show r.rcur < 32 from hr⟩, ?_⟩
    have hout : (32 + (r.wcur + 1) % 32 - r.rcur) % 32 =
        (32 + r.wcur - r.rcur) % 32 + 1 := by omega
    unfold pending
    simp only [hout, List.range_succ, List.map_append, List.map_cons, List.map_nil]
    congr 1
    · apply List.map_congr_left
      intro i hi
      rw [List.mem_range] at hi
      have : (r.rcur + i) % 32 ≠ r.wcur := by omega
      simp [this]
    · have : (r.rcur + (32 + r.wcur - r.rcur) % 32) % 32 = r.wcur := by omega
      simp [this]

theorem pop_eq (r : Ring) (hr : r.rcur < 32) :
    pop r = (if r.rcur = r.wcur then (r, none)
      else ({ r with rcur := (r.rcur + 1) % 32 }, some (r.buf r.rcur))) := by
  have hnext : (if 32 ≤ r.rcur + 1 then 0 else r.rcur + 1) = (r.rcur + 1) % 32 := by
    by_cases hc : 32 ≤ r.rcur + 1
    · rw [if_pos hc]
      omega
    · rw [if_neg hc]
      omega
  simp only [pop]
  rw [hnext]

theorem pop_spec (r : Ring) (hw : r.wcur < 32) (hr : r.rcur < 32) :
    ((pop r).2 = none ↔ r.rcur = r.wcur) ∧
    ((pop r).2 = none ↔ pending r = []) ∧
    ((pop r).2 = none → (pop r).1 = r) ∧
    (∀ f, (pop r).2 = some f → RingWF (pop r).1 ∧
      pending r = f :: pending (pop r).1) := by
  have hpendnil : pending r = [] ↔ (32 + r.wcur - r.rcur) % 32 = 0 := by
    unfold pending
    constructor
    · intro hp
      have := congrArg List.length hp
      simpa using this
    · intro hz
      rw [hz]
      simp
  rw [pop_eq r hr]
  by_cases he : r.rcur = r.wcur
  · rw [if_pos he]
    refine ⟨by simpa using he, ?_, fun _ => rfl, fun f hf => by simp at hf⟩
    rw [hpendnil]
    simp
    omega
  · rw [if_neg he]
    refine ⟨by simpa using he, ?_, fun hn => by simp at hn, fun f hf => ?_⟩
    · rw [hpendnil]
      simp
      omega
    · have hval : f = r.buf r.rcur := by
        simpa using hf.symm
      rw [hval]
      have hout : (32 + r.wcur - r.rcur) % 32 =
          (32 + r.wcur - (r.rcur + 1) % 32) % 32 + 1 := by omega
      refine ⟨⟨show r.wcur < 32 from hw, show (r.rcur + 1) % 32 < 32 by omega⟩, ?_⟩
      unfold pending
      simp only [hout]
      rw [List.range_succ_eq_map]
      simp only [List.map_cons, List.map_map]
      congr 1
      · have h00 : r.rcur % 32 = r.rcur := by omega
        simp [h00]
      · apply List.map_congr_left
        intro i hi
        rw [List.mem_range] at hi
        have : (r.rcur + (i + 1)) % 32 = ((r.rcur + 1) % 32 + i) % 32 := by omega
        simp only [Function.comp_apply]
        rw [this]

/-- Conservation: over any operation sequence from a well-formed ring, the
frames pending initially followed by the successful pushes equal the pops
followed by the frames still pending. -/
theorem runOps_conserve (ops : List RingOp) : ∀ r : Ring, RingWF r →
    RingWF (runOps r ops).1 ∧
    pending r ++ (runOps r ops).2.1 = (runOps r ops).2.2 ++ pending (runOps r ops).1 := by
  induction ops with
  | nil => intro r hwf; simpa [runOps] using hwf
  | cons op rest ih =>
    intro r hwf
    cases op with
    | pushOp f =>
      have hp := push_spec r f hwf.1 hwf.2
      cases hok : (push r f).2 with
      | false =>
        have hst := hp.2.2.1 hok
        have := ih r hwf
        simp only [runOps, hok, hst]
        simpa [hst] using this
      | true =>
        have hst := hp.2.2.2 hok
        have := ih (push r f).1 hst.1
        simp only [runOps, hok]
        refine ⟨this.1, ?_⟩
        simp only [if_true]
        rw [← List.append_assoc, ← hst.2]
        exact this.2
    | popOp =>
      have hp := pop_spec r hwf.1 hwf.2
      cases hres : (pop r).2 with
      | none =>
        have hst := hp.2.2.1 hres
        have := ih r hwf
        simp only [runOps, hres, hst]
        simpa [hst] using this
      | some f =>
        have hst := hp.2.2.2 f hres
        have := ih (pop r).1 hst.1
        simp only [runOps, hres]
        refine ⟨this.1, ?_⟩
        rw [hst.2]
        simpa using this.2

/-- **C6.**  The ring is a bounded FIFO of capacity 32: from the initial
ring, for any interleaving of pushes and pops, the successfully pushed
sequence equals the popped sequence followed by the still-pending frames
(so pops return pushed frames in FIFO order); at the reached state `push`
fails exactly when `(write+1) mod 32 = read`, i.e. when 31 entries are
outstanding, and `pop` fails exactly when the cursors coincide, i.e. when
nothing is outstanding. -/
theorem ring_spsc (ops : List RingOp) (f : GlobalHeader × Body) :
    (runOps initRing ops).2.1 =
      (runOps initRing ops).2.2 ++ pending (runOps initRing ops).1 ∧
    ((push (runOps initRing ops).1 f).2 = false ↔
      ((runOps initRing ops).1.wcur + 1) % 32 = (runOps initRing ops).1.rcur) ∧
    ((push (runOps initRing ops).1 f).2 = false ↔
      (pending (runOps initRing ops).1).length = 31) ∧
    ((pop (runOps initRing ops).1).2 = none ↔
      (runOps initRing ops).1.rcur = (runOps initRing ops).1.wcur) ∧
    ((pop (runOps initRing ops).1).2 = none ↔ pending (runOps initRing ops).1 = []) := by
  have h0 : RingWF initRing := ⟨by decide, by decide⟩
  have hc := runOps_conserve ops initRing h0
  have hpend0 : pending initRing = [] := by simp [pending, initRing]
  have hw := hc.1
  refine ⟨?_, (push_spec _ f hw.1 hw.2).1, (push_spec _ f hw.1 hw.2).2.1,
    (pop_spec _ hw.1 hw.2).1, (pop_spec _ hw.1 hw.2).2.1⟩
  have := hc.2
  rwa [hpend0, List.nil_append] at this

/-! ## C2 — modulation round-trip (code bug at segment crossings)

`write_mod` advances its `uint16_t*` source by `data += segment_capacity`
*elements* after copying only `segment_capacity` payload **bytes**, so the
second chunk of a boundary-crossing frame is read from payload byte offset
`2 * segment_capacity` instead of `segment_capacity`: the bytes stored
after the 2^15 boundary are not the continuation of the input, and the
spec's round-trip property cannot hold for any partition in which a frame
straddles a segment boundary.  (Independently, a frame that *ends exactly*
on the boundary leaves `MOD_ADDR_OFFSET` stale, as in C3.) -/

/-- A state mid-upload: 32700 modulation bytes already appended. -/
def modBugSys : Sys := { initSys with modCycle := 32700 }

/-- A plain MOD body frame (no MOD_BEGIN / MOD_END) of 124 samples whose
payload byte `i` is `i % 256`. -/
def modBugHeader : GlobalHeader :=
  { msgId := 5, fpgaCtlReg := CtlFlags.zero, cpuCtlReg := MOD_FLAG, size := 124,
    data := fun i => i % 256 }

/-- **C2 (failing input).**  At `_mod_cycle = 32700`, a 124-byte frame
crosses the 2^15 boundary with `segment_capacity = 68`.  The writer first
copies 34 words (payload bytes 0..67), updates `MOD_ADDR_OFFSET` to 1, and
then — because `data += segment_capacity` skipped 136 bytes instead of
68 — stores at window word 0 of segment 1 the word built from payload
bytes 136/137 (35208), not the continuation bytes 68/69 (17732).
`_mod_cycle` itself still advances to 32824. -/
theorem write_mod_crossing_wrong_source :
    (write_mod modBugSys modBugHeader).2[34]? = some (WOp.creg CReg.modAddrOffset 1) ∧
    (write_mod modBugSys modBugHeader).2[35]? = some (WOp.modW 0 35208) ∧
    modBugHeader.modBodyData 68 + 256 * modBugHeader.modBodyData 69 = 17732 ∧
    (35208 : Nat) ≠ 17732 ∧
    (write_mod modBugSys modBugHeader).1.modCycle = 32824 := by
  refine ⟨?_, ?_, by decide, by decide, by decide⟩ <;> decide

/-! ## C3 — point-STM round-trip

The STM BRAM seen through the window: claims about "STM BRAM holds …" are
interpreted through the FPGA windowing contract. -/

/-- Modelled from the spec: the STM select is a 2^14-word window that the
FPGA maps at segment `STM_ADDR_OFFSET`, so a window write to word `a`
lands at logical word `offset * 16384 + a`.  One interpretation step of a
write log: `STM_ADDR_OFFSET` writes move the window, STM-select writes
store through it, anything else is ignored. -/
def stmMemStep (p : Nat × (Nat → Nat)) (op : WOp) : Nat × (Nat → Nat) :=
  match op with
  | WOp.creg CReg.stmAddrOffset v => (v, p.2)
  | WOp.stmW a v => (p.1, upd p.2 (p.1 * 16384 + a) v)
  | _ => p

/-- Interpret a write log against (window offset, logical STM memory). -/
def stmMemFold (p : Nat × (Nat → Nat)) (L : List WOp) : Nat × (Nat → Nat) :=
  L.foldl stmMemStep p

/-- The values written to controller register `r` by a log, in order. -/
def cregWrites (L : List WOp) (r : CReg) : List Nat :=
  L.filterMap (fun op => match op with
    | WOp.creg r2 v => if r2 = r then some v else none
    | _ => none)

/-- Logical word address of the start of point slot `j`: word offset
`8 * (j mod 2^11)` of segment `j div 2^11`. -/
def slotAddr (j : Nat) : Nat := (j / 2048) * 16384 + (j % 2048) * 8

/-- One point-STM frame carrying `sz` points starting at global point
index `start` of the point stream `pts` (word `k` of point `j` is
`pts (4*j+k)`): the head frame (`first`) has `STM_BEGIN` and its points
start at body word 5; a body frame's points start at word 1; the last
frame carries `STM_END`.  Body word 0 is the size. -/
def mkPointFrame (pts : Nat → Nat) (first last : Bool) (start sz : Nat) :
    GlobalHeader × Body :=
  ({ msgId := 5, fpgaCtlReg := { CtlFlags.zero with opMode := true },
     cpuCtlReg := WRITE_BODY ||| (if first then STM_BEGIN else 0) |||
       (if last then STM_END else 0),
     size := 0, data := fun _ => 0 },
   ⟨fun i => if i = 0 then sz
     else if i < (if first then 5 else 1) then 0
     else pts (4 * start + (i - (if first then 5 else 1)))⟩)

/-- The body frames of a partition, with the running point index. -/
def mkBodyFrames (pts : Nat → Nat) : Nat → List Nat → List (GlobalHeader × Body)
  | _, [] => []
  | start, sz :: rest =>
      mkPointFrame pts false rest.isEmpty start sz :: mkBodyFrames pts (start + sz) rest

/-- The frames of a partition of `sizes.sum` points into frames of the
given sizes: `STM_BEGIN` on the first, `STM_END` on the last. -/
def mkPointFrames (pts : Nat → Nat) (sizes : List Nat) : List (GlobalHeader × Body) :=
  match sizes with
  | [] => []
  | s0 :: rest => mkPointFrame pts true rest.isEmpty 0 s0 :: mkBodyFrames pts s0 rest

/-- Feed a list of frames to `write_point_stm`, collecting the log. -/
def runPointStm (s : Sys) : List (GlobalHeader × Body) → Sys × List WOp
  | [] => (s, [])
  | fb :: rest =>
      let r := write_point_stm s fb.1 fb.2
      let t := runPointStm r.1 rest
      (t.1, r.2 ++ t.2)

/-- The same run at the pure level: only `_stm_cycle` matters. -/
def runPointLogs (c : Nat) : List (GlobalHeader × Body) → Nat × List WOp
  | [] => (c, [])
  | fb :: rest =>
      let r := pointPure c fb.1 fb.2
      let t := runPointLogs r.1 rest
      (t.1, r.2 ++ t.2)

/-- The `STM_ADDR_OFFSET` values the point writer emits over a run of body
frames from point index `P`: one write of the next segment number per
boundary-straddling frame. -/
def segOffsets : Nat → List Nat → List Nat
  | _, [] => []
  | P, sz :: rest =>
      (if 2048 < P % 2048 + sz then [P / 2048 + 1] else []) ++ segOffsets (P + sz) rest

theorem stmMemFold_append (p : Nat × (Nat → Nat)) (L1 L2 : List WOp) :
    stmMemFold p (L1 ++ L2) = stmMemFold (stmMemFold p L1) L2 := by
  simp [stmMemFold]

theorem cregWrites_append (L1 L2 : List WOp) (r : CReg) :
    cregWrites (L1 ++ L2) r = cregWrites L1 r ++ cregWrites L2 r := by
  simp [cregWrites]

theorem runPointStm_eq_logs (frames : List (GlobalHeader × Body)) : ∀ s : Sys,
    (runPointStm s frames).2 = (runPointLogs s.stmCycle frames).2 ∧
    (runPointStm s frames).1.stmCycle = (runPointLogs s.stmCycle frames).1 := by
  induction frames with
  | nil => intro s; exact ⟨rfl, rfl⟩
  | cons fb rest ih =>
    intro s
    have hst : (write_point_stm s fb.1 fb.2).1.stmCycle = (pointPure s.stmCycle fb.1 fb.2).1 :=
      rfl
    have hlog : (write_point_stm s fb.1 fb.2).2 = (pointPure s.stmCycle fb.1 fb.2).2 := rfl
    have := ih (write_point_stm s fb.1 fb.2).1
    rw [hst] at this
    exact ⟨by simp only [runPointStm, runPointLogs, hlog, this.1],
           by simp only [runPointStm, runPointLogs, this.2]⟩

/-- The memory after one contiguous point copy: `cnt` stride-8 slots of 4
words each from logical word `base`, sourced from `bd` at `srcOff`. -/
def pointWriteMem (m : Nat → Nat) (base : Nat) (bd : Nat → Nat) (srcOff cnt : Nat) :
    Nat → Nat :=
  fun a => if base ≤ a ∧ a - base < 8 * cnt ∧ (a - base) % 8 < 4
    then bd (srcOff + 4 * ((a - base) / 8) + (a - base) % 8)
    else m a

theorem pointWriteMem_succ (m : Nat → Nat) (base : Nat) (bd : Nat → Nat) (srcOff n : Nat) :
    pointWriteMem m base bd srcOff (n + 1) =
    upd (upd (upd (upd (pointWriteMem m base bd srcOff n)
      (base + 8 * n) (bd (srcOff + 4 * n)))
      (base + 8 * n + 1) (bd (srcOff + 4 * n + 1)))
      (base + 8 * n + 2) (bd (srcOff + 4 * n + 2)))
      (base + 8 * n + 3) (bd (srcOff + 4 * n + 3)) := by
  funext a
  simp only [upd, pointWriteMem]
  split_ifs <;> first | rfl | (exact congrArg bd (by omega)) | omega

theorem fold_pointCpy (bd : Nat → Nat) (srcOff win o : Nat) (m : Nat → Nat) :
    ∀ cnt, stmMemFold (o, m) (pointCpy bd srcOff win cnt) =
      (o, pointWriteMem m (o * 16384 + win) bd srcOff cnt) := by
  intro cnt
  induction cnt with
  | zero =>
    simp only [pointCpy, List.range_zero, List.flatMap_nil, stmMemFold, List.foldl_nil]
    refine congrArg (Prod.mk o) ?_
    funext a
    simp [pointWriteMem]
  | succ n ih =>
    have hsplit : pointCpy bd srcOff win (n + 1) =
        pointCpy bd srcOff win n ++
        [WOp.stmW (win + 8 * n) (bd (srcOff + 4 * n)),
         WOp.stmW (win + 8 * n + 1) (bd (srcOff + 4 * n + 1)),
         WOp.stmW (win + 8 * n + 2) (bd (srcOff + 4 * n + 2)),
         WOp.stmW (win + 8 * n + 3) (bd (srcOff + 4 * n + 3))] := by
      simp only [pointCpy, List.range_succ, List.flatMap_append]
      congr 1
    rw [hsplit, stmMemFold_append, ih]
    simp only [stmMemFold, List.foldl_cons, List.foldl_nil, stmMemStep]
    rw [pointWriteMem_succ]
    have h0 : o * 16384 + (win + 8 * n) = o * 16384 + win + 8 * n := by omega
    have h1 : o * 16384 + (win + 8 * n + 1) = o * 16384 + win + 8 * n + 1 := by omega
    have h2 : o * 16384 + (win + 8 * n + 2) = o * 16384 + win + 8 * n + 2 := by omega
    have h3 : o * 16384 + (win + 8 * n + 3) = o * 16384 + win + 8 * n + 3 := by omega
    rw [h0, h1, h2, h3]

theorem cregWrites_pointCpy (bd : Nat → Nat) (srcOff win cnt : Nat) (r : CReg) :
    cregWrites (pointCpy bd srcOff win cnt) r = [] := by
  rw [cregWrites, List.filterMap_eq_nil_iff]
  intro op hop
  simp only [pointCpy, List.mem_flatMap, List.mem_map, List.mem_range] at hop
  obtain ⟨k, -, j, -, rfl⟩ := hop
  rfl

theorem slotAddr_add (P d : Nat) :
    slotAddr (P + d) = slotAddr P + 8 * d := by
  unfold slotAddr
  omega

theorem slotAddr_eq_linear (j : Nat) : slotAddr j = 8 * j := by
  unfold slotAddr
  omega

theorem slotAddr_inj (j1 k1 j2 k2 : Nat) (hk1 : k1 < 4) (hk2 : k2 < 4)
    (he : slotAddr j1 + k1 = slotAddr j2 + k2) : j1 = j2 ∧ k1 = k2 := by
  unfold slotAddr at he
  constructor <;> omega

theorem pointFrame_spec (pts : Nat → Nat) (P sz : Nat) (last : Bool) (m : Nat → Nat)
    (hsz : sz ≤ 62) (hb : P + sz < 4294967296) :
    (pointPure P (mkPointFrame pts false last P sz).1 (mkPointFrame pts false last P sz).2).1 =
      P + sz ∧
    cregWrites (pointPure P (mkPointFrame pts false last P sz).1
        (mkPointFrame pts false last P sz).2).2 CReg.stmCycleR =
      (if last then [max 1 (P + sz) - 1] else []) ∧
    cregWrites (pointPure P (mkPointFrame pts false last P sz).1
        (mkPointFrame pts false last P sz).2).2 CReg.stmAddrOffset =
      (if 2048 < P % 2048 + sz then [P / 2048 + 1] else []) ∧
    (stmMemFold (P / 2048, m) (pointPure P (mkPointFrame pts false last P sz).1
        (mkPointFrame pts false last P sz).2).2).1 =
      (if 2048 < P % 2048 + sz then P / 2048 + 1 else P / 2048) ∧
    (∀ j, P ≤ j → j < P + sz → ∀ k, k < 4 →
      (stmMemFold (P / 2048, m) (pointPure P (mkPointFrame pts false last P sz).1
        (mkPointFrame pts false last P sz).2).2).2 (slotAddr j + k) = pts (4 * j + k)) ∧
    (∀ a, (∀ j, P ≤ j → j < P + sz → ∀ k, k < 4 → a ≠ slotAddr j + k) →
      (stmMemFold (P / 2048, m) (pointPure P (mkPointFrame pts false last P sz).1
        (mkPointFrame pts false last P sz).2).2).2 a = m a) := by
  have hbegin : hasFlag (mkPointFrame pts false last P sz).1.cpuCtlReg STM_BEGIN = false := by
    cases last <;> (simp only [mkPointFrame]; decide)
  have hend : hasFlag (mkPointFrame pts false last P sz).1.cpuCtlReg STM_END = last := by
    cases last <;> (simp only [mkPointFrame]; decide)
  have hbd0 : (mkPointFrame pts false last P sz).2.data 0 = sz := rfl
  have hbdval : ∀ x, (mkPointFrame pts false last P sz).2.data (1 + x) = pts (4 * P + x) := by
    intro x
    show (if 1 + x = 0 then sz else if 1 + x < 1 then 0 else pts (4 * P + (1 + x - 1))) = _
    rw [if_neg (by omega), if_neg (by omega)]
    exact congrArg pts (by omega)
  by_cases hcross : 2048 < P % 2048 + sz
  · -- crossing frame: two chunks with an offset update in between
    have hcap : ¬ sz ≤ 2048 - P % 2048 := by omega
    have hmod : P % 2048 < 2048 := Nat.mod_lt _ (by omega)
    have hcapbound : P + (2048 - P % 2048) < 4294967296 := by omega
    have hu1 : u32add P (2048 - P % 2048) = P + (2048 - P % 2048) := u32add_small hcapbound
    have hu2 : u32add (P + (2048 - P % 2048)) (sz - (2048 - P % 2048)) = P + sz := by
      rw [u32add_small (by omega)]
      omega
    have hoffval : (P + (2048 - P % 2048) - (P + (2048 - P % 2048)) % 2048) / 2048 =
        P / 2048 + 1 := by omega
    have hoffval2 : (P + (2048 - P % 2048) - 0) / 2048 = P / 2048 + 1 := by omega
    have hseg2 : (P + (2048 - P % 2048)) % 2048 = 0 := by omega
    have hlog : (pointPure P (mkPointFrame pts false last P sz).1
        (mkPointFrame pts false last P sz).2).2 =
        pointCpy (mkPointFrame pts false last P sz).2.data 1 ((P % 2048) * 8)
          (2048 - P % 2048) ++
        [WOp.creg CReg.stmAddrOffset (P / 2048 + 1)] ++
        pointCpy (mkPointFrame pts false last P sz).2.data (1 + 4 * (2048 - P % 2048))
          (0 * 8) (sz - (2048 - P % 2048)) ++
        (if last then [WOp.creg CReg.stmCycleR (max 1 (P + sz) - 1)] else []) := by
      simp only [pointPure, hbegin, hend, hbd0, Bool.false_eq_true, if_false, if_neg hcap,
        POINT_SEG, hu1, hu2, hoffval, hoffval2, hseg2, List.nil_append]
    have hcyc : (pointPure P (mkPointFrame pts false last P sz).1
        (mkPointFrame pts false last P sz).2).1 = P + sz := by
      simp only [pointPure, hbegin, hbd0, Bool.false_eq_true, if_false, if_neg hcap,
        POINT_SEG, hu1, hu2]
    have hfold : stmMemFold (P / 2048, m) (pointPure P (mkPointFrame pts false last P sz).1
        (mkPointFrame pts false last P sz).2).2 =
        (P / 2048 + 1,
         pointWriteMem
           (pointWriteMem m (P / 2048 * 16384 + P % 2048 * 8)
             (mkPointFrame pts false last P sz).2.data 1 (2048 - P % 2048))
           ((P / 2048 + 1) * 16384 + 0 * 8)
           (mkPointFrame pts false last P sz).2.data (1 + 4 * (2048 - P % 2048))
           (sz - (2048 - P % 2048))) := by
      rw [hlog, stmMemFold_append, stmMemFold_append, stmMemFold_append]
      have s1 := fold_pointCpy (mkPointFrame pts false last P sz).2.data 1
        (P % 2048 * 8) (P / 2048) m (2048 - P % 2048)
      rw [s1]
      have s2 : stmMemFold (P / 2048, pointWriteMem m (P / 2048 * 16384 + P % 2048 * 8)
          (mkPointFrame pts false last P sz).2.data 1 (2048 - P % 2048))
          [WOp.creg CReg.stmAddrOffset (P / 2048 + 1)] =
          (P / 2048 + 1, pointWriteMem m (P / 2048 * 16384 + P % 2048 * 8)
            (mkPointFrame pts false last P sz).2.data 1 (2048 - P % 2048)) := by
        simp [stmMemFold, stmMemStep]
      rw [s2]
      have s3 := fold_pointCpy (mkPointFrame pts false last P sz).2.data
        (1 + 4 * (2048 - P % 2048)) (0 * 8) (P / 2048 + 1)
        (pointWriteMem m (P / 2048 * 16384 + P % 2048 * 8)
          (mkPointFrame pts false last P sz).2.data 1 (2048 - P % 2048))
        (sz - (2048 - P % 2048))
      rw [s3]
      cases last <;> simp [stmMemFold, stmMemStep]
    refine ⟨hcyc, ?_, ?_, ?_, ?_, ?_⟩
    · rw [hlog]
      simp only [cregWrites_append, cregWrites_pointCpy]
      cases last <;> simp [cregWrites]
    · rw [hlog]
      simp only [cregWrites_append, cregWrites_pointCpy, if_pos hcross]
      cases last <;> simp [cregWrites]
    · rw [hfold, if_pos hcross]
    · intro j hj1 hj2 k hk
      rw [hfold]
      rw [slotAddr_eq_linear]
      by_cases hjseg : j < P + (2048 - P % 2048)
      · -- written by the first chunk, out of range of the second
        try simp only [pointWriteMem]
        rw [if_neg (by
          intro hcond
          obtain ⟨hc1, hc2, hc3⟩ := hcond
          omega)]
        try simp only [pointWriteMem]
        rw [if_pos (by exact ⟨by omega, by omega, by omega⟩)]
        have e1 : 1 + 4 * ((8 * j + k - (P / 2048 * 16384 + P % 2048 * 8)) / 8) +
            (8 * j + k - (P / 2048 * 16384 + P % 2048 * 8)) % 8 = 1 + (4 * (j - P) + k) := by
          omega
        rw [e1, hbdval]
        exact congrArg pts (by omega)
      · -- written by the second chunk
        try simp only [pointWriteMem]
        rw [if_pos (by exact ⟨by omega, by omega, by omega⟩)]
        have e1 : 1 + 4 * (2048 - P % 2048) +
            (4 * ((8 * j + k - ((P / 2048 + 1) * 16384 + 0 * 8)) / 8) +
             (8 * j + k - ((P / 2048 + 1) * 16384 + 0 * 8)) % 8) = 1 + (4 * (j - P) + k) := by
          omega
        calc (mkPointFrame pts false last P sz).2.data
              (1 + 4 * (2048 - P % 2048) +
               4 * ((8 * j + k - ((P / 2048 + 1) * 16384 + 0 * 8)) / 8) +
               (8 * j + k - ((P / 2048 + 1) * 16384 + 0 * 8)) % 8) =
            (mkPointFrame pts false last P sz).2.data (1 + (4 * (j - P) + k)) :=
              congrArg _ (by omega)
          _ = pts (4 * P + (4 * (j - P) + k)) := hbdval _
          _ = pts (4 * j + k) := congrArg pts (by omega)
    · intro a hno
      rw [hfold]
      have hno8 : ∀ j, P ≤ j → j < P + sz → ∀ k, k < 4 → a ≠ 8 * j + k := by
        intro j h1 h2 k h3
        have := hno j h1 h2 k h3
        rwa [slotAddr_eq_linear] at this
      try simp only [pointWriteMem]
      rw [if_neg (by
        intro hcond
        obtain ⟨hc1, hc2, hc3⟩ := hcond
        exact hno8 (P + (2048 - P % 2048) + (a - ((P / 2048 + 1) * 16384 + 0 * 8)) / 8)
          (by omega) (by omega) ((a - ((P / 2048 + 1) * 16384 + 0 * 8)) % 8)
          (by omega) (by omega))]
      try simp only [pointWriteMem]
      rw [if_neg (by
        intro hcond
        obtain ⟨hc1, hc2, hc3⟩ := hcond
        exact hno8 (P + (a - (P / 2048 * 16384 + P % 2048 * 8)) / 8) (by omega) (by omega)
          ((a - (P / 2048 * 16384 + P % 2048 * 8)) % 8) (by omega) (by omega))]
  · -- non-crossing frame: a single chunk
    have hcap : sz ≤ 2048 - P % 2048 := by omega
    have hu : u32add P sz = P + sz := u32add_small hb
    have hlog : (pointPure P (mkPointFrame pts false last P sz).1
        (mkPointFrame pts false last P sz).2).2 =
        pointCpy (mkPointFrame pts false last P sz).2.data 1 ((P % 2048) * 8) sz ++
        (if last then [WOp.creg CReg.stmCycleR (max 1 (P + sz) - 1)] else []) := by
      simp only [pointPure, hbegin, hend, hbd0, Bool.false_eq_true, if_false, if_pos hcap,
        POINT_SEG, hu]
      simp
    have hcyc : (pointPure P (mkPointFrame pts false last P sz).1
        (mkPointFrame pts false last P sz).2).1 = P + sz := by
      simp only [pointPure, hbegin, hbd0, Bool.false_eq_true, if_false, if_pos hcap,
        POINT_SEG, hu]
    have hfold : stmMemFold (P / 2048, m) (pointPure P (mkPointFrame pts false last P sz).1
        (mkPointFrame pts false last P sz).2).2 =
        (P / 2048,
         pointWriteMem m (P / 2048 * 16384 + P % 2048 * 8)
           (mkPointFrame pts false last P sz).2.data 1 sz) := by
      rw [hlog, stmMemFold_append, fold_pointCpy]
      cases last <;> simp [stmMemFold, stmMemStep]
    refine ⟨hcyc, ?_, ?_, ?_, ?_, ?_⟩
    · rw [hlog]
      simp only [cregWrites_append, cregWrites_pointCpy]
      cases last <;> simp [cregWrites]
    · rw [hlog]
      simp only [cregWrites_append, cregWrites_pointCpy, if_neg hcross]
      cases last <;> simp [cregWrites]
    · rw [hfold, if_neg hcross]
    · intro j hj1 hj2 k hk
      rw [hfold]
      rw [slotAddr_eq_linear]
      try simp only [pointWriteMem]
      rw [if_pos (by exact ⟨by omega, by omega, by omega⟩)]
      have e1 : 1 + 4 * ((8 * j + k - (P / 2048 * 16384 + P % 2048 * 8)) / 8) +
          (8 * j + k - (P / 2048 * 16384 + P % 2048 * 8)) % 8 = 1 + (4 * (j - P) + k) := by
        omega
      rw [e1, hbdval]
      exact congrArg pts (by omega)
    · intro a hno
      rw [hfold]
      have hno8 : ∀ j, P ≤ j → j < P + sz → ∀ k, k < 4 → a ≠ 8 * j + k := by
        intro j h1 h2 k h3
        have := hno j h1 h2 k h3
        rwa [slotAddr_eq_linear] at this
      try simp only [pointWriteMem]
      rw [if_neg (by
        intro hcond
        obtain ⟨hc1, hc2, hc3⟩ := hcond
        exact hno8 (P + (a - (P / 2048 * 16384 + P % 2048 * 8)) / 8) (by omega) (by omega)
          ((a - (P / 2048 * 16384 + P % 2048 * 8)) % 8) (by omega) (by omega))]

theorem pointHead_spec (pts : Nat → Nat) (s0 : Nat) (last : Bool) (c0 o0 : Nat)
    (m0 : Nat → Nat) (hsz : s0 ≤ 62) :
    (pointPure c0 (mkPointFrame pts true last 0 s0).1 (mkPointFrame pts true last 0 s0).2).1 =
      s0 ∧
    cregWrites (pointPure c0 (mkPointFrame pts true last 0 s0).1
        (mkPointFrame pts true last 0 s0).2).2 CReg.stmCycleR =
      (if last then [max 1 s0 - 1] else []) ∧
    cregWrites (pointPure c0 (mkPointFrame pts true last 0 s0).1
        (mkPointFrame pts true last 0 s0).2).2 CReg.stmAddrOffset = [0] ∧
    (stmMemFold (o0, m0) (pointPure c0 (mkPointFrame pts true last 0 s0).1
        (mkPointFrame pts true last 0 s0).2).2).1 = 0 ∧
    (∀ j, j < s0 → ∀ k, k < 4 →
      (stmMemFold (o0, m0) (pointPure c0 (mkPointFrame pts true last 0 s0).1
        (mkPointFrame pts true last 0 s0).2).2).2 (slotAddr j + k) = pts (4 * j + k)) ∧
    (∀ a, (∀ j, j < s0 → ∀ k, k < 4 → a ≠ slotAddr j + k) →
      (stmMemFold (o0, m0) (pointPure c0 (mkPointFrame pts true last 0 s0).1
        (mkPointFrame pts true last 0 s0).2).2).2 a = m0 a) := by
  have hbegin : hasFlag (mkPointFrame pts true last 0 s0).1.cpuCtlReg STM_BEGIN = true := by
    cases last <;> (simp only [mkPointFrame]; decide)
  have hend : hasFlag (mkPointFrame pts true last 0 s0).1.cpuCtlReg STM_END = last := by
    cases last <;> (simp only [mkPointFrame]; decide)
  have hbd0 : (mkPointFrame pts true last 0 s0).2.data 0 = s0 := rfl
  have hbdval : ∀ x, (mkPointFrame pts true last 0 s0).2.data (5 + x) = pts (4 * 0 + x) := by
    intro x
    show (if 5 + x = 0 then s0 else if 5 + x < 5 then 0 else pts (4 * 0 + (5 + x - 5))) = _
    rw [if_neg (by omega), if_neg (by omega)]
    exact congrArg pts (by omega)
  have hcap : s0 ≤ 2048 - 0 % 2048 := by omega
  have hu : u32add 0 s0 = s0 := by
    rw [u32add_small (by omega)]
    omega
  have hlog : (pointPure c0 (mkPointFrame pts true last 0 s0).1
      (mkPointFrame pts true last 0 s0).2).2 =
      [WOp.creg CReg.stmAddrOffset 0,
       WOp.creg CReg.stmFreqDiv0 ((mkPointFrame pts true last 0 s0).2.data 1),
       WOp.creg CReg.stmFreqDiv1 ((mkPointFrame pts true last 0 s0).2.data 2),
       WOp.creg CReg.soundSpeed0 ((mkPointFrame pts true last 0 s0).2.data 3),
       WOp.creg CReg.soundSpeed1 ((mkPointFrame pts true last 0 s0).2.data 4)] ++
      pointCpy (mkPointFrame pts true last 0 s0).2.data 5 ((0 % 2048) * 8) s0 ++
      (if last then [WOp.creg CReg.stmCycleR (max 1 s0 - 1)] else []) := by
    simp only [pointPure, hbegin, hend, hbd0, if_true, if_pos hcap, POINT_SEG, hu]
  have hcyc : (pointPure c0 (mkPointFrame pts true last 0 s0).1
      (mkPointFrame pts true last 0 s0).2).1 = s0 := by
    simp only [pointPure, hbegin, hbd0, if_true, if_pos hcap, POINT_SEG, hu]
  have hfold : stmMemFold (o0, m0) (pointPure c0 (mkPointFrame pts true last 0 s0).1
      (mkPointFrame pts true last 0 s0).2).2 =
      (0, pointWriteMem m0 (0 * 16384 + 0 % 2048 * 8)
        (mkPointFrame pts true last 0 s0).2.data 5 s0) := by
    rw [hlog, stmMemFold_append, stmMemFold_append]
    have s1 : stmMemFold (o0, m0)
        [WOp.creg CReg.stmAddrOffset 0,
         WOp.creg CReg.stmFreqDiv0 ((mkPointFrame pts true last 0 s0).2.data 1),
         WOp.creg CReg.stmFreqDiv1 ((mkPointFrame pts true last 0 s0).2.data 2),
         WOp.creg CReg.soundSpeed0 ((mkPointFrame pts true last 0 s0).2.data 3),
         WOp.creg CReg.soundSpeed1 ((mkPointFrame pts true last 0 s0).2.data 4)] =
        (0, m0) := by
      simp [stmMemFold, stmMemStep]
    rw [s1]
    have s2 := fold_pointCpy (mkPointFrame pts true last 0 s0).2.data 5 ((0 % 2048) * 8)
      0 m0 s0
    rw [s2]
    cases last <;> simp [stmMemFold, stmMemStep]
  refine ⟨hcyc, ?_, ?_, ?_, ?_, ?_⟩
  · rw [hlog]
    simp only [cregWrites_append, cregWrites_pointCpy]
    cases last <;> simp [cregWrites]
  · rw [hlog]
    simp only [cregWrites_append, cregWrites_pointCpy]
    cases last <;> simp [cregWrites]
  · rw [hfold]
  · intro j hj k hk
    rw [hfold]
    rw [slotAddr_eq_linear]
    try simp only [pointWriteMem]
    rw [if_pos (by exact ⟨by omega, by omega, by omega⟩)]
    have e1 : 5 + 4 * ((8 * j + k - (0 * 16384 + 0 % 2048 * 8)) / 8) +
        (8 * j + k - (0 * 16384 + 0 % 2048 * 8)) % 8 = 5 + (4 * j + k) := by omega
    rw [e1, hbdval]
    exact congrArg pts (by omega)
  · intro a hno
    rw [hfold]
    have hno8 : ∀ j, j < s0 → ∀ k, k < 4 → a ≠ 8 * j + k := by
      intro j h1 k h3
      have := hno j h1 k h3
      rwa [slotAddr_eq_linear] at this
    try simp only [pointWriteMem]
    rw [if_neg (by
      intro hcond
      obtain ⟨hc1, hc2, hc3⟩ := hcond
      exact hno8 ((a - (0 * 16384 + 0 % 2048 * 8)) / 8) (by omega)
        ((a - (0 * 16384 + 0 % 2048 * 8)) % 8) (by omega) (by omega))]

theorem pointBody_run (pts : Nat → Nat) : ∀ (sizes : List Nat) (P : Nat) (m : Nat → Nat),
    (∀ sz ∈ sizes, sz ≤ 62) →
    P + sizes.sum < 4294967296 →
    (∀ t, t + 1 < sizes.length → (P + (sizes.take (t + 1)).sum) % 2048 = 0 →
        P + (sizes.take (t + 1)).sum = 0) →
    (runPointLogs P (mkBodyFrames pts P sizes)).1 = P + sizes.sum ∧
    cregWrites (runPointLogs P (mkBodyFrames pts P sizes)).2 CReg.stmCycleR =
      (if sizes.isEmpty then [] else [max 1 (P + sizes.sum) - 1]) ∧
    cregWrites (runPointLogs P (mkBodyFrames pts P sizes)).2 CReg.stmAddrOffset =
      segOffsets P sizes ∧
    (∀ j, P ≤ j → j < P + sizes.sum → ∀ k, k < 4 →
      (stmMemFold (P / 2048, m) (runPointLogs P (mkBodyFrames pts P sizes)).2).2
        (slotAddr j + k) = pts (4 * j + k)) ∧
    (∀ a, (∀ j, P ≤ j → j < P + sizes.sum → ∀ k, k < 4 → a ≠ slotAddr j + k) →
      (stmMemFold (P / 2048, m) (runPointLogs P (mkBodyFrames pts P sizes)).2).2 a = m a) := by
  intro sizes
  induction sizes with
  | nil =>
    intro P m _ _ _
    refine ⟨by simp [mkBodyFrames, runPointLogs], ?_, ?_, ?_, ?_⟩
    · simp [mkBodyFrames, runPointLogs, cregWrites, segOffsets]
    · simp [mkBodyFrames, runPointLogs, cregWrites, segOffsets]
    · intro j hj1 hj2
      exfalso
      simp only [List.sum_nil] at hj2
      omega
    · intro a _
      simp [mkBodyFrames, runPointLogs, stmMemFold]
  | cons sz rest ih =>
    intro P m hsz hbound hfill
    have hszhd : sz ≤ 62 := hsz sz (by simp)
    have hbnd1 : P + sz < 4294967296 := by
      have := hbound
      simp only [List.sum_cons] at this
      omega
    have hframe := pointFrame_spec pts P sz rest.isEmpty m hszhd hbnd1
    have hrun : runPointLogs P (mkBodyFrames pts P (sz :: rest)) =
        ((runPointLogs (P + sz) (mkBodyFrames pts (P + sz) rest)).1,
         (pointPure P (mkPointFrame pts false rest.isEmpty P sz).1
            (mkPointFrame pts false rest.isEmpty P sz).2).2 ++
         (runPointLogs (P + sz) (mkBodyFrames pts (P + sz) rest)).2) := by
      simp only [mkBodyFrames, runPointLogs, hframe.1]
    cases rest with
    | nil =>
      -- single final frame
      have hlast : (List.nil : List Nat).isEmpty = true := rfl
      refine ⟨?_, ?_, ?_, ?_, ?_⟩
      · rw [hrun]
        simp [runPointLogs, mkBodyFrames, List.sum_cons]
      · rw [hrun]
        simp only [runPointLogs, mkBodyFrames, List.append_nil, cregWrites_append]
        rw [hframe.2.1]
        simp [cregWrites]
      · rw [hrun]
        simp only [runPointLogs, mkBodyFrames, List.append_nil, cregWrites_append]
        rw [hframe.2.2.1]
        simp [cregWrites, segOffsets]
      · intro j hj1 hj2 k hk
        rw [hrun]
        simp only [runPointLogs, mkBodyFrames, List.append_nil]
        exact hframe.2.2.2.2.1 j hj1 (by simpa using hj2) k hk
      · intro a hno
        rw [hrun]
        simp only [runPointLogs, mkBodyFrames, List.append_nil]
        refine hframe.2.2.2.2.2 a ?_
        intro j hj1 hj2 k hk
        exact hno j hj1 (by simpa using hj2) k hk
    | cons sz2 rest2 =>
      have hlastf : (sz2 :: rest2).isEmpty = false := rfl
      have hfill0 : (P + sz) % 2048 = 0 → P + sz = 0 := by
        intro h0
        have := hfill 0 (by simp) (by simpa using h0)
        simpa using this
      have hoff1 : (if 2048 < P % 2048 + sz then P / 2048 + 1 else P / 2048) =
          (P + sz) / 2048 := by
        by_cases hc : 2048 < P % 2048 + sz
        · rw [if_pos hc]
          omega
        · rw [if_neg hc]
          by_cases h0 : (P + sz) % 2048 = 0
          · have := hfill0 h0
            omega
          · omega
      have hboundr : (P + sz) + (sz2 :: rest2).sum < 4294967296 := by
        simp only [List.sum_cons] at hbound ⊢
        omega
      have hfillr : ∀ t, t + 1 < (sz2 :: rest2).length →
          ((P + sz) + ((sz2 :: rest2).take (t + 1)).sum) % 2048 = 0 →
          (P + sz) + ((sz2 :: rest2).take (t + 1)).sum = 0 := by
        intro t ht h0
        have h1 : (t + 1) + 1 < (sz :: sz2 :: rest2).length := by
          simpa using ht
        have h2 : P + ((sz :: sz2 :: rest2).take (t + 1 + 1)).sum =
            (P + sz) + ((sz2 :: rest2).take (t + 1)).sum := by
          simp [List.take_succ_cons, List.sum_cons]
          omega
        have := hfill (t + 1) h1 (by rw [h2]; exact h0)
        rw [h2] at this
        exact this
      have hihr := ih (P + sz) (stmMemFold (P / 2048, m)
        (pointPure P (mkPointFrame pts false (sz2 :: rest2).isEmpty P sz).1
          (mkPointFrame pts false (sz2 :: rest2).isEmpty P sz).2).2).2
        (fun x hx => hsz x (by simp [hx])) hboundr hfillr
      have hsplit : stmMemFold (P / 2048, m)
          ((pointPure P (mkPointFrame pts false (sz2 :: rest2).isEmpty P sz).1
              (mkPointFrame pts false (sz2 :: rest2).isEmpty P sz).2).2 ++
           (runPointLogs (P + sz) (mkBodyFrames pts (P + sz) (sz2 :: rest2))).2) =
          stmMemFold ((P + sz) / 2048,
            (stmMemFold (P / 2048, m)
              (pointPure P (mkPointFrame pts false (sz2 :: rest2).isEmpty P sz).1
                (mkPointFrame pts false (sz2 :: rest2).isEmpty P sz).2).2).2)
            (runPointLogs (P + sz) (mkBodyFrames pts (P + sz) (sz2 :: rest2))).2 := by
        rw [stmMemFold_append]
        congr 1
        have h1 := hframe.2.2.2.1
        rw [hlastf] at h1 ⊢
        rw [hoff1] at h1
        exact Prod.ext h1 rfl
      refine ⟨?_, ?_, ?_, ?_, ?_⟩
      · rw [hrun]
        rw [hihr.1]
        simp [List.sum_cons]
        omega
      · rw [hrun]
        simp only [cregWrites_append]
        rw [hframe.2.1, hihr.2.1]
        simp only [hlastf, List.isEmpty_cons, Bool.false_eq_true, if_false, List.nil_append]
        have he : P + sz + (sz2 :: rest2).sum = P + (sz :: sz2 :: rest2).sum := by
          simp [List.sum_cons]
          omega
        rw [he]
      · rw [hrun]
        simp only [cregWrites_append]
        rw [hframe.2.2.1, hihr.2.2.1]
        simp [segOffsets]
      · intro j hj1 hj2 k hk
        rw [hrun]
        simp only []
        rw [hsplit]
        by_cases hjf : j < P + sz
        · -- written by this frame, untouched by the rest of the run
          rw [hihr.2.2.2.2 (slotAddr j + k) ?_]
          · exact hframe.2.2.2.2.1 j hj1 hjf k hk
          · intro j2 hj21 hj22 k2 hk2 heq
            have := slotAddr_inj j k j2 k2 hk hk2 heq
            omega
        · -- written by the rest of the run
          refine hihr.2.2.2.1 j (by omega) ?_ k hk
          simp only [List.sum_cons] at hj2 ⊢
          omega
      · intro a hno
        rw [hrun]
        simp only []
        rw [hsplit]
        rw [hihr.2.2.2.2 a ?_]
        · refine hframe.2.2.2.2.2 a ?_
          intro j hj1 hj2 k hk
          refine hno j hj1 ?_ k hk
          simp only [List.sum_cons]
          omega
        · intro j hj1 hj2 k hk
          refine hno j (by omega) ?_ k hk
          simp only [List.sum_cons] at hj2 ⊢
          omega

theorem range_map_succ_split (b n : Nat) :
    (List.range (n + 1)).map (fun t => b + t) =
      b :: (List.range n).map (fun t => b + 1 + t) := by
  rw [List.range_succ_eq_map, List.map_cons, List.map_map]
  simp only [Nat.add_zero]
  congr 1
  apply List.map_congr_left
  intro t _
  simp only [Function.comp_apply]
  omega

theorem segOffsets_closed : ∀ (sizes : List Nat) (P : Nat),
    (∀ sz ∈ sizes, sz ≤ 62) →
    (∀ t, t + 1 < sizes.length → (P + (sizes.take (t + 1)).sum) % 2048 = 0 →
        P + (sizes.take (t + 1)).sum = 0) →
    segOffsets P sizes =
      (List.range ((P + sizes.sum - 1) / 2048 - P / 2048)).map (fun t => P / 2048 + 1 + t) := by
  intro sizes
  induction sizes with
  | nil =>
    intro P _ _
    have : (P + List.sum [] - 1) / 2048 - P / 2048 = 0 := by
      simp only [List.sum_nil]
      omega
    rw [this]
    simp [segOffsets]
  | cons sz rest ih =>
    intro P hsz hfill
    have hszhd : sz ≤ 62 := hsz sz (by simp)
    cases rest with
    | nil =>
      by_cases hc : 2048 < P % 2048 + sz
      · have hcount : (P + (sz :: List.nil).sum - 1) / 2048 - P / 2048 = 1 := by
          simp only [List.sum_cons, List.sum_nil]
          omega
        rw [hcount]
        have h1 : List.range 1 = [0] := rfl
        rw [h1]
        simp [segOffsets, hc]
      · have hcount : (P + (sz :: List.nil).sum - 1) / 2048 - P / 2048 = 0 := by
          simp only [List.sum_cons, List.sum_nil]
          omega
        rw [hcount]
        simp [segOffsets, hc]
    | cons sz2 rest2 =>
      have hfill0 : (P + sz) % 2048 = 0 → P + sz = 0 := by
        intro h0
        have := hfill 0 (by simp) (by simpa using h0)
        simpa using this
      have hfillr : ∀ t, t + 1 < (sz2 :: rest2).length →
          ((P + sz) + ((sz2 :: rest2).take (t + 1)).sum) % 2048 = 0 →
          (P + sz) + ((sz2 :: rest2).take (t + 1)).sum = 0 := by
        intro t ht h0
        have h1 : (t + 1) + 1 < (sz :: sz2 :: rest2).length := by simpa using ht
        have h2 : P + ((sz :: sz2 :: rest2).take (t + 1 + 1)).sum =
            (P + sz) + ((sz2 :: rest2).take (t + 1)).sum := by
          simp [List.take_succ_cons, List.sum_cons]
          omega
        have := hfill (t + 1) h1 (by rw [h2]; exact h0)
        rw [h2] at this
        exact this
      have hir := ih (P + sz) (fun x hx => hsz x (by simp [hx])) hfillr
      show (if 2048 < P % 2048 + sz then [P / 2048 + 1] else []) ++ segOffsets (P + sz)
          (sz2 :: rest2) = _
      rw [hir]
      have hsums : (sz :: sz2 :: rest2).sum = sz + (sz2 :: rest2).sum := by simp
      by_cases hc : 2048 < P % 2048 + sz
      · have hdiv : (P + sz) / 2048 = P / 2048 + 1 := by omega
        have hN : (P + (sz :: sz2 :: rest2).sum - 1) / 2048 - P / 2048 =
            ((P + sz + (sz2 :: rest2).sum - 1) / 2048 - (P + sz) / 2048) + 1 := by
          omega
        rw [hN, if_pos hc, hdiv, range_map_succ_split]
        simp only [List.singleton_append]
      · have hdiv : (P + sz) / 2048 = P / 2048 := by
          by_cases h0 : (P + sz) % 2048 = 0
          · have := hfill0 h0
            omega
          · omega
        have hN : (P + (sz :: sz2 :: rest2).sum - 1) / 2048 - P / 2048 =
            (P + sz + (sz2 :: rest2).sum - 1) / 2048 - (P + sz) / 2048 := by
          omega
        rw [hN, if_neg hc, hdiv]
        simp

/-- The point-STM round-trip property of claim C3, for a partition of
`sizes.sum` points into frames of the given sizes: after the run, the
interpreted STM memory holds point `j`'s 4-word payload at word offset
`8 * (j mod 2^11)` of segment `j div 2^11`; `_stm_cycle` ends at the point
count; the final `STM_CYCLE` write is `max(1, K) - 1`; and the
`STM_ADDR_OFFSET` writes are 0 (from `STM_BEGIN`) followed by one write
per segment crossing. -/
def PointRoundTrip (pts : Nat → Nat) (sizes : List Nat) (o0 : Nat) (m0 : Nat → Nat) : Prop :=
  (∀ j, j < sizes.sum → ∀ k, k < 4 →
    (stmMemFold (o0, m0) (runPointStm initSys (mkPointFrames pts sizes)).2).2
      (slotAddr j + k) = pts (4 * j + k)) ∧
  (runPointStm initSys (mkPointFrames pts sizes)).1.stmCycle = sizes.sum ∧
  cregWrites (runPointStm initSys (mkPointFrames pts sizes)).2 CReg.stmCycleR =
    [max 1 sizes.sum - 1] ∧
  cregWrites (runPointStm initSys (mkPointFrames pts sizes)).2 CReg.stmAddrOffset =
    0 :: (List.range ((sizes.sum - 1) / 2048)).map (fun t => t + 1)

/-- **C3, amended.**  The point-STM round-trip holds for every partition in
which no frame before the last ends exactly on a 2^11-point segment
boundary (sizes at most a body's 62-point capacity, total below 2^32).
Without that proviso the writer leaves `STM_ADDR_OFFSET` stale after an
exact segment fill — see the counterexample. -/
theorem point_stm_roundtrip (pts : Nat → Nat) (sizes : List Nat) (o0 : Nat) (m0 : Nat → Nat)
    (hne : sizes ≠ [])
    (hsz : ∀ sz ∈ sizes, sz ≤ 62)
    (hsum : sizes.sum < 4294967296)
    (hfill : ∀ t, t + 1 < sizes.length → ((sizes.take (t + 1)).sum) % 2048 = 0 →
        (sizes.take (t + 1)).sum = 0) :
    PointRoundTrip pts sizes o0 m0 := by
  rcases sizes with _ | ⟨s0, rest⟩
  · exact absurd rfl hne
  have hlogs := runPointStm_eq_logs (mkPointFrames pts (s0 :: rest)) initSys
  have hinit : initSys.stmCycle = 0 := rfl
  rw [hinit] at hlogs
  have hs0 : s0 ≤ 62 := hsz s0 (by simp)
  have hhead := pointHead_spec pts s0 rest.isEmpty 0 o0 m0 hs0
  have hrun : runPointLogs 0 (mkPointFrames pts (s0 :: rest)) =
      ((runPointLogs s0 (mkBodyFrames pts s0 rest)).1,
       (pointPure 0 (mkPointFrame pts true rest.isEmpty 0 s0).1
          (mkPointFrame pts true rest.isEmpty 0 s0).2).2 ++
       (runPointLogs s0 (mkBodyFrames pts s0 rest)).2) := by
    simp only [mkPointFrames, runPointLogs, hhead.1]
  have hboundr : s0 + rest.sum < 4294967296 := by
    simp only [List.sum_cons] at hsum
    omega
  have hfillr : ∀ t, t + 1 < rest.length →
      (s0 + (rest.take (t + 1)).sum) % 2048 = 0 →
      s0 + (rest.take (t + 1)).sum = 0 := by
    intro t ht h0
    have h1 : (t + 1) + 1 < (s0 :: rest).length := by simpa using ht
    have h2 : ((s0 :: rest).take (t + 1 + 1)).sum = s0 + (rest.take (t + 1)).sum := by
      simp [List.take_succ_cons, List.sum_cons]
    have := hfill (t + 1) h1 (by rw [h2]; exact h0)
    rw [h2] at this
    exact this
  have hbody := pointBody_run pts rest s0
    (stmMemFold (o0, m0) (pointPure 0 (mkPointFrame pts true rest.isEmpty 0 s0).1
      (mkPointFrame pts true rest.isEmpty 0 s0).2).2).2
    (fun x hx => hsz x (by simp [hx])) hboundr hfillr
  have hs0div : s0 / 2048 = 0 := by omega
  have hsplit : stmMemFold (o0, m0)
      ((pointPure 0 (mkPointFrame pts true rest.isEmpty 0 s0).1
          (mkPointFrame pts true rest.isEmpty 0 s0).2).2 ++
       (runPointLogs s0 (mkBodyFrames pts s0 rest)).2) =
      stmMemFold (s0 / 2048,
        (stmMemFold (o0, m0) (pointPure 0 (mkPointFrame pts true rest.isEmpty 0 s0).1
          (mkPointFrame pts true rest.isEmpty 0 s0).2).2).2)
        (runPointLogs s0 (mkBodyFrames pts s0 rest)).2 := by
    rw [stmMemFold_append]
    congr 1
    rw [hs0div]
    exact Prod.ext hhead.2.2.2.1 rfl
  have hsumc : (s0 :: rest).sum = s0 + rest.sum := by simp
  refine ⟨?_, ?_, ?_, ?_⟩
  · intro j hj k hk
    rw [hlogs.1, hrun]
    simp only []
    rw [hsplit]
    by_cases hjh : j < s0
    · rw [hbody.2.2.2.2 (slotAddr j + k) ?_]
      · exact hhead.2.2.2.2.1 j hjh k hk
      · intro j2 hj21 hj22 k2 hk2 heq
        have := slotAddr_inj j k j2 k2 hk hk2 heq
        omega
    · refine hbody.2.2.2.1 j (by omega) ?_ k hk
      rw [hsumc] at hj
      omega
  · rw [hlogs.2, hrun]
    simp only []
    rw [hbody.1, hsumc]
  · rw [hlogs.1, hrun]
    simp only [cregWrites_append]
    rw [hhead.2.1, hbody.2.1]
    by_cases hre : rest.isEmpty
    · have : rest = [] := List.isEmpty_iff.mp hre
      subst this
      simp [hsumc]
    · have hreb : rest.isEmpty = false := by
        cases h : rest.isEmpty
        · rfl
        · exact absurd h hre
      rw [hreb]
      simp only [Bool.false_eq_true, if_false, List.nil_append]
      rw [hsumc]
  · rw [hlogs.1, hrun]
    simp only [cregWrites_append]
    rw [hhead.2.2.1, hbody.2.2.1]
    rw [segOffsets_closed rest s0 (fun x hx => hsz x (by simp [hx])) hfillr]
    rw [hsumc, hs0div]
    have hcnt : (s0 + rest.sum - 1) / 2048 - 0 = (s0 + rest.sum - 1) / 2048 := by omega
    rw [hcnt]
    simp only [List.cons_append, List.nil_append]
    congr 1
    apply List.map_congr_left
    intro t _
    omega

theorem point_stm_roundtrip_witness :
    ([2, 3] : List Nat) ≠ [] ∧
    (∀ sz ∈ ([2, 3] : List Nat), sz ≤ 62) ∧
    ([2, 3] : List Nat).sum < 4294967296 ∧
    PointRoundTrip (fun i => i) [2, 3] 0 (fun _ => 0) :=
  ⟨by decide, by decide, by decide,
   point_stm_roundtrip (fun i => i) [2, 3] 0 (fun _ => 0) (by decide) (by decide) (by decide)
     (by
       intro t ht
       simp only [List.length_cons, List.length_nil] at ht
       have ht0 : t = 0 := by omega
       subst ht0
       decide)⟩

theorem pointBody_offsets (pts : Nat → Nat) : ∀ (sizes : List Nat) (P : Nat),
    (∀ sz ∈ sizes, sz ≤ 62) →
    P + sizes.sum < 4294967296 →
    (runPointLogs P (mkBodyFrames pts P sizes)).1 = P + sizes.sum ∧
    cregWrites (runPointLogs P (mkBodyFrames pts P sizes)).2 CReg.stmAddrOffset =
      segOffsets P sizes := by
  intro sizes
  induction sizes with
  | nil =>
    intro P _ _
    exact ⟨by simp [mkBodyFrames, runPointLogs], by
      simp [mkBodyFrames, runPointLogs, cregWrites, segOffsets]⟩
  | cons sz rest ih =>
    intro P hsz hbound
    have hszhd : sz ≤ 62 := hsz sz (by simp)
    have hbnd1 : P + sz < 4294967296 := by
      simp only [List.sum_cons] at hbound
      omega
    have hframe := pointFrame_spec pts P sz rest.isEmpty (fun _ => 0) hszhd hbnd1
    have hrun : runPointLogs P (mkBodyFrames pts P (sz :: rest)) =
        ((runPointLogs (P + sz) (mkBodyFrames pts (P + sz) rest)).1,
         (pointPure P (mkPointFrame pts false rest.isEmpty P sz).1
            (mkPointFrame pts false rest.isEmpty P sz).2).2 ++
         (runPointLogs (P + sz) (mkBodyFrames pts (P + sz) rest)).2) := by
      simp only [mkBodyFrames, runPointLogs, hframe.1]
    have hboundr : (P + sz) + rest.sum < 4294967296 := by
      simp only [List.sum_cons] at hbound
      omega
    have hir := ih (P + sz) (fun x hx => hsz x (by simp [hx])) hboundr
    constructor
    · rw [hrun]
      simp only []
      rw [hir.1]
      simp only [List.sum_cons]
      omega
    · rw [hrun]
      simp only [cregWrites_append]
      rw [hframe.2.2.1, hir.2]
      rfl

/-- The identity-like point stream used by the C3 counterexample. -/
def cexPts : Nat → Nat := fun i => i % 65536

/-- A partition whose 34th frame ends exactly at point 2048 = 2^11: sizes
61, 62 × 32, 3, then one final point (2049 points in total). -/
def cexSizes : List Nat := 61 :: (List.replicate 32 62 ++ [3, 1])

/-- **C3, counterexample.**  For the partition `cexSizes`, whose 34th
frame ends exactly on the 2^11-point segment boundary, the writer never
updates `STM_ADDR_OFFSET` to segment 1 (segment transitions are emitted
only when a single frame *straddles* the boundary), so the offset-write
sequence is `[0]` instead of the claimed `[0, 1]`, and the final point is
stored through the stale offset — the round-trip property of C3 is false
for this partition. -/
theorem point_stm_exact_fill_counterexample :
    cexSizes ≠ [] ∧
    (∀ sz ∈ cexSizes, sz ≤ 62) ∧
    cexSizes.sum = 2049 ∧
    cregWrites (runPointStm initSys (mkPointFrames cexPts cexSizes)).2
      CReg.stmAddrOffset = [0] ∧
    ¬ PointRoundTrip cexPts cexSizes 0 (fun _ => 0) := by
  have hs0 : (61 : Nat) ≤ 62 := by omega
  have hhead := pointHead_spec cexPts 61 (List.replicate 32 62 ++ [3, 1]).isEmpty 0 0
    (fun _ => 0) hs0
  have hlogs := runPointStm_eq_logs (mkPointFrames cexPts cexSizes) initSys
  have hinit : initSys.stmCycle = 0 := rfl
  rw [hinit] at hlogs
  have hrun : runPointLogs 0 (mkPointFrames cexPts cexSizes) =
      ((runPointLogs 61 (mkBodyFrames cexPts 61 (List.replicate 32 62 ++ [3, 1]))).1,
       (pointPure 0 (mkPointFrame cexPts true (List.replicate 32 62 ++ [3, 1]).isEmpty 0 61).1
          (mkPointFrame cexPts true (List.replicate 32 62 ++ [3, 1]).isEmpty 0 61).2).2 ++
       (runPointLogs 61 (mkBodyFrames cexPts 61 (List.replicate 32 62 ++ [3, 1]))).2) := by
    simp only [cexSizes, mkPointFrames, runPointLogs, hhead.1]
  have hbody := pointBody_offsets cexPts (List.replicate 32 62 ++ [3, 1]) 61
    (by decide) (by decide)
  have hoff : cregWrites (runPointStm initSys (mkPointFrames cexPts cexSizes)).2
      CReg.stmAddrOffset = [0] := by
    rw [hlogs.1, hrun]
    simp only [cregWrites_append]
    rw [hhead.2.2.1, hbody.2]
    rw [show segOffsets 61 (List.replicate 32 62 ++ [3, 1]) = [] from by decide]
    rfl
  refine ⟨by decide, by decide, by decide, hoff, ?_⟩
  intro hP
  have hc := hP.2.2.2
  rw [hoff] at hc
  rw [show cexSizes.sum = 2049 from by decide] at hc
  exact absurd hc (by decide)

end Autd3
